import Mathlib

/-!
Stream validator (`src/tools/stream_validator.cpp`).

A shallow embedding of the validation pass of `main` and the proofs of the
properties stated about it.

Conventions of the embedding.

* `node_id_t` values are natural numbers below `NODE_MOD`, `size_t` values are
  natural numbers below `SIZE_MOD`; every subtraction and every addition of the
  source that can wrap is written with an explicit `%`.
* `std::vector<std::vector<bool>>` is `List (List Bool)`: the rows and, in each
  row, the cells below its size.  `operator[]` is not checked.  A
  `std::vector<bool>` keeps its bits in whole words of `WORD_BITS` bits, all
  cleared when the vector is built, so an index that is beyond the size of a
  row but inside its last word reads and writes a bit of that word and the
  code goes on; these bits, which nothing else looks at, are kept in the field
  `slack` of the state.  An index beyond the last row, or beyond the words of a
  row, leaves the storage of the vector: it has no defined behaviour and the
  embedding makes it the abort `Abort.outOfRange`, a run that produces no
  result.
* The stream is the list of the batches that the successive calls of
  `get_update_buffer` return; when the list is used up the next call throws,
  which is the abort `Abort.streamError`.
* Lines written to `std::cerr` for a flagged record are collected, in order, in
  the field `log` of the state.
* The snapshot stream of the reconciliation pass is its header (vertex count,
  edge count) and the list of the records that its successive one-record reads
  return; the mismatches written to `std::cerr` by the comparison are returned
  as the list of the edges named.
-/

namespace StreamValidator

/-- Modelled from the spec: the enumerator `INSERT` of `UpdateType`, declared in a
header that is not part of the sources at hand.  An insert is consistent exactly
when the cell is `false`, and the code compares the cell (converted to an
integer) with the kind, so the value is `0`. -/
def INSERT : Nat := 0

/-- Modelled from the spec: the enumerator `DELETE` of `UpdateType`; a delete is
consistent exactly when the cell is `true`, so the value is `1`. -/
def DELETE : Nat := 1

/-- Modelled from the spec: the enumerator `BREAKPOINT` of `UpdateType`, a third
kind that differs from `INSERT` and `DELETE`. -/
def BREAKPOINT : Nat := 2

/-- Modelled from the spec: `node_id_t` is declared in a header that is not part
of the sources at hand; vertex ids are unsigned integers, taken here as 32-bit
words. -/
def NODE_MOD : Nat := 4294967296

/-- Number of values of `size_t` (64-bit words). -/
def SIZE_MOD : Nat := 18446744073709551616

/-- Subtraction of two `node_id_t` values, wrapping as unsigned arithmetic
does. -/
def sub32 (a b : Nat) : Nat := (a % NODE_MOD + NODE_MOD - b % NODE_MOD) % NODE_MOD

/-- Subtraction of two `size_t` values, wrapping as unsigned arithmetic does. -/
def sub64 (a b : Nat) : Nat := (a % SIZE_MOD + SIZE_MOD - b % SIZE_MOD) % SIZE_MOD

/-- Addition of two `size_t` values, wrapping as unsigned arithmetic does. -/
def add64 (a b : Nat) : Nat := (a + b) % SIZE_MOD

/-- The struct `Edge`: two vertex ids. -/
structure Edge where
  src : Nat
  dst : Nat
deriving DecidableEq, Repr

/-- The struct `GraphStreamUpdate`: the kind byte `type` and the edge. -/
structure GraphStreamUpdate where
  type : Nat
  edge : Edge
deriving DecidableEq, Repr

/-- One diagnostic written to `std::cerr` by the validation loop: the call of
`err_edge` (edge index, edge, kind) and the line that follows it. -/
inductive Finding where
  | equalSrcDst (idx : Nat) (edge : Edge) (u : Nat)
  | incorrectType (idx : Nat) (edge : Edge) (u : Nat) (expect : Bool)
  | outOfBounds (idx : Nat) (edge : Edge) (u : Nat)
  | countMismatch (got : Nat) (expected : Nat)
deriving DecidableEq, Repr

/-- The ways a run ends without a result: an access outside the storage of a
vector, an exception thrown by a stream, and the two `StreamException`s thrown
by the reconciliation pass (lines 143 and 159). -/
inductive Abort where
  | outOfRange
  | streamError
  | nodesMismatch
  | duplicateEdge
deriving DecidableEq, Repr

/-- The triangular table `adj_mat`. -/
abbrev AdjMat := List (List Bool)

/-- Reading `m[i][j]`; `none` when `i` or `j` is beyond the size of the vector
indexed. -/
def AdjMat.get? (m : AdjMat) (i j : Nat) : Option Bool :=
  match m[i]? with
  | none => none
  | some row => row[j]?

/-- Writing `m[i][j] = b`, for an index that is in range. -/
def AdjMat.set (m : AdjMat) (i j : Nat) (b : Bool) : AdjMat :=
  match m[i]? with
  | none => m
  | some row => List.set m i (List.set row j b)

/-- Lines 66-69: row `i` of the table has `nodes - i - 1` cells, all `false`. -/
def make_adj_mat (nodes : Nat) : AdjMat :=
  (List.range nodes).map (fun i => List.replicate (sub32 (sub32 nodes i) 1) false)

/-- The variables of `main` that the validation loop changes, and the
diagnostics written so far.  `slack` lists the positions (row, column), beyond
the size of their row but inside its last word, whose bit is set; it is empty
as long as no record with an endpoint out of range was processed. -/
structure ValidatorState where
  adj_mat : AdjMat
  err : Bool
  total_checked : Nat
  log : List Finding
  slack : List (Nat × Nat) := []
deriving DecidableEq, Repr

/-- Number of bits of a word of the storage of a `std::vector<bool>`. -/
def WORD_BITS : Nat := 64

/-- Number of bits of the storage that a `std::vector<bool>` of `n` bits owns:
the words that hold `n` bits. -/
def storage_bits (n : Nat) : Nat := ((n + WORD_BITS - 1) / WORD_BITS) * WORD_BITS

/-- Column `j` of row `i` is beyond the size of the row and inside its last
word. -/
def in_slack (m : AdjMat) (i j : Nat) : Bool :=
  match m[i]? with
  | none => false
  | some row => decide (row.length ≤ j ∧ j < storage_bits row.length)

/-- The read `adj_mat[i][j]` of lines 98 and 100: the cell, or the bit of the last
word of the row; `none` when the access leaves the storage of the table. -/
def read_cell (st : ValidatorState) (i j : Nat) : Option Bool :=
  match st.adj_mat.get? i j with
  | some c => some c
  | none => if in_slack st.adj_mat i j then some (decide ((i, j) ∈ st.slack)) else none

/-- The write `adj_mat[i][j] = b` of line 104, at a position that was read. -/
def write_cell (st : ValidatorState) (i j : Nat) (b : Bool) : ValidatorState :=
  match st.adj_mat.get? i j with
  | some _ => { st with adj_mat := st.adj_mat.set i j b }
  | none =>
    { st with
      slack := if b then (i, j) :: st.slack.filter (fun p => p ≠ (i, j))
        else st.slack.filter (fun p => p ≠ (i, j)) }

/-- Conversion of a `bool` to an integer, as in the comparison of line 98. -/
def boolToNat (b : Bool) : Nat := if b then 1 else 0

/-- Lines 96-97: the row and the column of the cell of an edge. -/
def canonical (edge : Edge) : Nat × Nat :=
  let src := min edge.src edge.dst
  let local_dst := sub32 (sub32 (max edge.src edge.dst) src) 1
  (src, local_dst)

/-- Lines 81-110: the body of the `for` loop, for the record at position `e` of
the batch. -/
def process_update (nodes : Nat) (e : Nat) (st : ValidatorState)
    (upd : GraphStreamUpdate) : Except Abort ValidatorState :=
  let edge := upd.edge
  let u := upd.type
  if u = BREAKPOINT then .ok st
  else if edge.src = edge.dst then
    .ok { st with
          log := st.log ++ [Finding.equalSrcDst (add64 st.total_checked e) edge u],
          err := true }
  else
    let src := (canonical edge).1
    let local_dst := (canonical edge).2
    match read_cell st src local_dst with
    | none => .error Abort.outOfRange
    | some cell =>
      let st1 : ValidatorState :=
        if boolToNat cell ≠ u then
          { st with
            log := st.log ++ [Finding.incorrectType (add64 st.total_checked e) edge u cell],
            err := true }
        else st
      let st2 : ValidatorState := write_cell st1 src local_dst (!cell)
      if edge.src ≥ nodes ∨ edge.dst ≥ nodes then
        .ok { st2 with
              log := st2.log ++ [Finding.outOfBounds (add64 st.total_checked e) edge u],
              err := true }
      else .ok st2

/-- Lines 80-111: the `for` loop over the records of a batch, from position
`e` on. -/
def process_batch (nodes : Nat) : Nat → ValidatorState → List GraphStreamUpdate →
    Except Abort ValidatorState
  | _, st, [] => .ok st
  | e, st, upd :: rest =>
    match process_update nodes e st upd with
    | .error a => .error a
    | .ok st1 => process_batch nodes (e + 1) st1 rest

/-- Lines 80-112: a whole batch, then `total_checked += updates`. -/
def consume_batch (nodes : Nat) (st : ValidatorState) (buf : List GraphStreamUpdate) :
    Except Abort ValidatorState :=
  match process_batch nodes 0 st buf with
  | .error a => .error a
  | .ok st1 => .ok { st1 with total_checked := add64 st1.total_checked buf.length }

/-- Line 117: the test that ends the loop, `updates == 1 && buf[0].type == BREAKPOINT`. -/
def is_terminal (buf : List GraphStreamUpdate) : Bool :=
  match buf with
  | [upd] => decide (upd.type = BREAKPOINT)
  | _ => false

/-- Lines 118-122: the check of the number of records against the declared
number of updates. -/
def terminal_check (edges : Nat) (st : ValidatorState) : ValidatorState :=
  if sub64 st.total_checked 2 ≠ edges then
    { st with
      log := st.log ++ [Finding.countMismatch st.total_checked edges],
      err := true }
  else st

/-- Lines 77-125: the `while (true)` loop.  The result is the state at the
`break` together with the batches that were not read. -/
def validate_loop (nodes edges : Nat) : ValidatorState → List (List GraphStreamUpdate) →
    Except Abort (ValidatorState × List (List GraphStreamUpdate))
  | _, [] => .error Abort.streamError
  | st, buf :: rest =>
    match consume_batch nodes st buf with
    | .error a => .error a
    | .ok st1 =>
      if is_terminal buf then .ok (terminal_check edges st1, rest)
      else validate_loop nodes edges st1 rest

/-- Lines 66-75: the state before the first batch is read. -/
def initial_state (nodes : Nat) : ValidatorState :=
  { adj_mat := make_adj_mat nodes, err := false, total_checked := 0, log := [], slack := [] }

/-- Lines 66-125: the validation pass over a stream with `nodes` vertices and
`edges` declared updates. -/
def validate (nodes edges : Nat) (batches : List (List GraphStreamUpdate)) :
    Except Abort (ValidatorState × List (List GraphStreamUpdate)) :=
  validate_loop nodes edges (initial_state nodes) batches

/-- Lines 128-133: the run reports "Stream validated!" when the loop ended with
the error flag down; `log = []` says that no diagnostic was written. -/
def reports_success (r : Except Abort (ValidatorState × List (List GraphStreamUpdate))) : Bool :=
  match r with
  | .ok (st, _) => !st.err && st.log.isEmpty
  | .error _ => false

/-- The shape line 66-69 gives the table: `nodes` rows, row `i` of
`nodes - i - 1` cells. -/
def AdjMat.Shaped (nodes : Nat) (m : AdjMat) : Prop :=
  m.length = nodes ∧ ∀ i row, m[i]? = some row → row.length = nodes - i - 1

/-- A record names an edge of the graph: distinct endpoints, both below the
number of vertices. -/
def in_range (nodes : Nat) (upd : GraphStreamUpdate) : Prop :=
  upd.edge.src ≠ upd.edge.dst ∧ upd.edge.src < nodes ∧ upd.edge.dst < nodes

/-- Every record that is not a breakpoint names an edge of the graph. -/
def records_in_range (nodes : Nat) (recs : List GraphStreamUpdate) : Prop :=
  ∀ r ∈ recs, r.type ≠ BREAKPOINT → in_range nodes r

/-- The record is not a breakpoint and its unordered edge is `a, b` with
`a` the smaller endpoint. -/
def on_edge (a b : Nat) (r : GraphStreamUpdate) : Bool :=
  decide (r.type ≠ BREAKPOINT) && decide (min r.edge.src r.edge.dst = a)
    && decide (max r.edge.src r.edge.dst = b)

/-- The kinds of the records of the unordered edge `a, b`, in stream order. -/
def kinds_on (a b : Nat) (recs : List GraphStreamUpdate) : List Nat :=
  (recs.filter (on_edge a b)).map (fun r => r.type)

/-- The kind the toggle protocol expects for an edge that is present or
absent. -/
def expected_kind (present : Bool) : Nat := if present then DELETE else INSERT

/-- The kinds alternate, the first one being the kind expected for an edge whose
state is `present`. -/
def alternates_from : Bool → List Nat → Prop
  | _, [] => True
  | present, k :: ks => k = expected_kind present ∧ alternates_from (!present) ks

/-- The kinds alternate Insert, Delete, Insert, ... starting with Insert. -/
def alternates (ks : List Nat) : Prop := alternates_from false ks

/-- The state of the edge `a, b` (`a` the smaller endpoint) recorded in the
table: the cell of row `a` and column `b - a - 1`, `false` when the table has no
such cell. -/
def AdjMat.present (m : AdjMat) (a b : Nat) : Bool :=
  (m.get? a (b - a - 1)).getD false

/-- An Insert record of the edge `(s, d)`. -/
def insert_rec (s d : Nat) : GraphStreamUpdate :=
  { type := INSERT, edge := { src := s, dst := d } }

/-- A Delete record of the edge `(s, d)`. -/
def delete_rec (s d : Nat) : GraphStreamUpdate :=
  { type := DELETE, edge := { src := s, dst := d } }

/-- A Breakpoint record. -/
def breakpoint_rec : GraphStreamUpdate :=
  { type := BREAKPOINT, edge := { src := 0, dst := 0 } }

/-- A record of a kind that is neither Insert, Delete nor Breakpoint. -/
def unknown_rec (s d : Nat) : GraphStreamUpdate :=
  { type := 3, edge := { src := s, dst := d } }

/-- A sample stream before its terminal batch: one batch holding an insert and a
delete of the same edge and the first of the two closing breakpoints. -/
def sample_batches : List (List GraphStreamUpdate) :=
  [[insert_rec 0 1, delete_rec 1 0, breakpoint_rec]]

/-- The edge that the cell at row `p.1`, column `p.2` stands for; line 167
rebuilds it as `(s, s + d + 1)`. -/
def decode (p : Nat × Nat) : Nat × Nat := (p.1, p.1 + p.2 + 1)

/-- The triangular index space of a stream with `V` vertices: the rows `lo < V`
and, in row `lo`, the columns `offset < V - lo - 1`. -/
def triangular (V : Nat) : Finset (Nat × Nat) :=
  (Finset.range V ×ˢ Finset.range V).filter (fun p => p.2 < V - p.1 - 1)

/-- The unordered pairs of distinct vertex ids below `V`, each written with its
smaller endpoint first. -/
def vertex_pairs (V : Nat) : Finset (Nat × Nat) :=
  (Finset.range V ×ˢ Finset.range V).filter (fun p => p.1 < p.2)

/-- Addition of two `node_id_t` values, wrapping as unsigned arithmetic does. -/
def add32 (a b : Nat) : Nat := (a + b) % NODE_MOD

/-- The snapshot stream `cumul_stream`: the vertex count and the edge count of
its header, and the records that the successive calls of
`get_update_buffer(&upd, 1)` return. -/
structure CumulStream where
  vertices : Nat
  edges : Nat
  records : List GraphStreamUpdate
deriving DecidableEq, Repr

/-- Lines 156-161: the body of the loop that fills `cumul_adj`, for one record of
the snapshot.  An index beyond the size of a row is made the abort here, also
when it stays inside the last word of the row: the statements about the
snapshot take its records with distinct endpoints in range, where the index is
inside the row. -/
def cumul_insert (cumul_adj : AdjMat) (upd : GraphStreamUpdate) : Except Abort AdjMat :=
  let src := (canonical upd.edge).1
  let local_dst := (canonical upd.edge).2
  match cumul_adj.get? src local_dst with
  | none => .error Abort.outOfRange
  | some true => .error Abort.duplicateEdge
  | some false => .ok (cumul_adj.set src local_dst true)

/-- Lines 152-162: the loop `for (e = 0; e < cumul_edges; e++)`, with the number of
iterations left; each iteration reads one record.  The result is the table and
the records that were not read. -/
def build_cumul : Nat → AdjMat → List GraphStreamUpdate →
    Except Abort (AdjMat × List GraphStreamUpdate)
  | 0, m, recs => .ok (m, recs)
  | _ + 1, _, [] => .error Abort.streamError
  | n + 1, m, upd :: rest =>
    match cumul_insert m upd with
    | .error a => .error a
    | .ok m2 => build_cumul n m2 rest

/-- The variables that the comparison of lines 164-172 changes: the edges named
in the mismatches written to `std::cerr` so far, and the flag `err`. -/
structure CompareState where
  found : List (Nat × Nat)
  err : Bool
deriving DecidableEq, Repr

/-- Lines 166-170: the comparison of the cell at row `s`, column `d`. -/
def compare_cell (adj_mat cumul_adj : AdjMat) (s d : Nat) (cs : CompareState) :
    Except Abort CompareState :=
  match adj_mat.get? s d, cumul_adj.get? s d with
  | some a, some c =>
    if a ≠ c then .ok { found := cs.found ++ [(s, add32 (add32 s d) 1)], err := true }
    else .ok cs
  | _, _ => .error Abort.outOfRange

/-- Lines 165-171: the loop over the columns of row `s`, from column `d`, with the
number of columns left. -/
def compare_row (adj_mat cumul_adj : AdjMat) (s : Nat) :
    Nat → Nat → CompareState → Except Abort CompareState
  | 0, _, cs => .ok cs
  | n + 1, d, cs =>
    match compare_cell adj_mat cumul_adj s d cs with
    | .error a => .error a
    | .ok cs2 => compare_row adj_mat cumul_adj s n (d + 1) cs2

/-- Lines 164-172: the loop over the rows, from row `s`, with the number of rows
left; the bound of the inner loop is `adj_mat[s].size()`. -/
def compare_rows (adj_mat cumul_adj : AdjMat) :
    Nat → Nat → CompareState → Except Abort CompareState
  | 0, _, cs => .ok cs
  | n + 1, s, cs =>
    match adj_mat[s]? with
    | none => .error Abort.outOfRange
    | some row =>
      match compare_row adj_mat cumul_adj s row.length 0 cs with
      | .error a => .error a
      | .ok cs2 => compare_rows adj_mat cumul_adj n (s + 1) cs2

/-- Lines 164-172: the comparison of the two tables, cell by cell, entered with
the flag `err`. -/
def compare_tables (nodes : Nat) (adj_mat cumul_adj : AdjMat) (err : Bool) :
    Except Abort CompareState :=
  compare_rows adj_mat cumul_adj nodes 0 { found := [], err := err }

/-- Lines 138-172: the reconciliation pass up to the end of the comparison. -/
def reconcile (nodes : Nat) (adj_mat : AdjMat) (err : Bool) (cumul : CumulStream) :
    Except Abort CompareState :=
  if cumul.vertices ≠ nodes then .error Abort.nodesMismatch
  else
    match build_cumul cumul.edges (make_adj_mat nodes) cumul.records with
    | .error a => .error a
    | .ok (cumul_adj, _) => compare_tables nodes adj_mat cumul_adj err

/-- The ways `main` ends with an exit status: the stream is invalid (line 132),
the stream is valid and no cumulative file was given, the graph matches the
cumulative file (line 174), or it does not (line 178). -/
inductive Outcome where
  | invalid (st : ValidatorState)
  | validated (st : ValidatorState)
  | matched (st : ValidatorState)
  | mismatched (st : ValidatorState) (found : List (Nat × Nat))
deriving DecidableEq, Repr

/-- Lines 58-182: the validation pass and, when it raised no error and a
cumulative file was given (`argc == 4`), the reconciliation pass. -/
def main (nodes edges : Nat) (batches : List (List GraphStreamUpdate))
    (cumul : Option CumulStream) : Except Abort Outcome :=
  match validate nodes edges batches with
  | .error a => .error a
  | .ok (st, _) =>
    if st.err then .ok (Outcome.invalid st)
    else
      match cumul with
      | none => .ok (Outcome.validated st)
      | some c =>
        match reconcile nodes st.adj_mat st.err c with
        | .error a => .error a
        | .ok cs =>
          if cs.err then .ok (Outcome.mismatched st cs.found) else .ok (Outcome.matched st)

/-- The unordered edge of a record, written smaller endpoint first. -/
def edge_key (r : GraphStreamUpdate) : Nat × Nat :=
  (min r.edge.src r.edge.dst, max r.edge.src r.edge.dst)

/-- The cells of the table of a stream with `nodes` vertices, in the order in
which lines 164-165 visit them. -/
def cells (nodes : Nat) : List (Nat × Nat) :=
  (List.range nodes).flatMap (fun s => (List.range (nodes - s - 1)).map (fun d => (s, d)))

/-- The two tables differ at the cell `p`. -/
def differ (adj_mat cumul_adj : AdjMat) (p : Nat × Nat) : Bool :=
  match adj_mat.get? p.1 p.2, cumul_adj.get? p.1 p.2 with
  | some a, some c => a != c
  | _, _ => false

/-- A sample stream of four vertices whose final edges are `(0,1)` and `(2,3)`. -/
def sample_stream : List (List GraphStreamUpdate) :=
  [[insert_rec 0 1, insert_rec 2 3, breakpoint_rec], [breakpoint_rec]]

/-- The diagnostic `f` is one of the three that the loop body writes for the
record `r`, with the edge index `idx`. -/
def flags (f : Finding) (idx : Nat) (r : GraphStreamUpdate) : Prop :=
  f = Finding.equalSrcDst idx r.edge r.type ∨
    (∃ c, f = Finding.incorrectType idx r.edge r.type c) ∨
    f = Finding.outOfBounds idx r.edge r.type

/-- The state of the comparison once the cells `l` have been visited, in order,
from the state `cs`: one mismatch is added for each cell of `l` at which the
tables differ, and `err` is set when there is one. -/
def visited (adj_mat cumul_adj : AdjMat) (cs : CompareState) (l : List (Nat × Nat)) :
    CompareState :=
  { found := cs.found ++
      (l.filter (differ adj_mat cumul_adj)).map (fun p => (p.1, add32 (add32 p.1 p.2) 1)),
    err := cs.err || l.any (differ adj_mat cumul_adj) }

/-- The iterations of the loop of lines 77-125 over batches none of which ends it:
each batch is processed and counted (lines 78-112). -/
def run_batches (nodes : Nat) : ValidatorState → List (List GraphStreamUpdate) →
    Except Abort ValidatorState
  | st, [] => .ok st
  | st, buf :: rest =>
    match consume_batch nodes st buf with
    | .error a => .error a
    | .ok st1 => run_batches nodes st1 rest

end StreamValidator

namespace StreamValidator

/-! ## Unsigned arithmetic -/

theorem sub32_of_le {a b : Nat} (h : b ≤ a) (ha : a < NODE_MOD) : sub32 a b = a - b := by
  unfold sub32 NODE_MOD at *
  omega

theorem min_lt_max_of_ne {a b : Nat} (hne : a ≠ b) : min a b < max a b := by
  rcases Nat.lt_or_gt_of_ne hne with h | h
  · rw [min_eq_left h.le, max_eq_right h.le]; exact h
  · rw [min_eq_right h.le, max_eq_left h.le]; exact h

theorem canonical_of_ne (e : Edge) (hne : e.src ≠ e.dst) (hs : e.src < NODE_MOD)
    (hd : e.dst < NODE_MOD) :
    canonical e = (min e.src e.dst, max e.src e.dst - min e.src e.dst - 1) := by
  unfold canonical
  have h1 : min e.src e.dst ≤ max e.src e.dst := le_trans (min_le_left _ _) (le_max_left _ _)
  have h2 : max e.src e.dst < NODE_MOD := max_lt hs hd
  have h3 : min e.src e.dst < max e.src e.dst := by
    rcases Nat.lt_or_gt_of_ne hne with h | h
    · rw [min_eq_left h.le, max_eq_right h.le]; exact h
    · rw [min_eq_right h.le, max_eq_left h.le]; exact h
  simp only
  rw [sub32_of_le h1 h2, sub32_of_le (by omega) (by omega)]

/-! ## The table -/

theorem AdjMat.get?_set (m : AdjMat) (i j i2 j2 : Nat) (b : Bool) :
    (m.set i j b).get? i2 j2 =
      if i = i2 ∧ j = j2 then (m.get? i j).map (fun _ => b) else m.get? i2 j2 := by
  unfold AdjMat.set AdjMat.get?
  cases hrow : m[i]? with
  | none =>
    by_cases h : i = i2 ∧ j = j2
    · obtain ⟨rfl, rfl⟩ := h
      simp [hrow]
    · simp [h]
  | some row =>
    have hi : i < m.length := by
      by_contra hcon
      rw [List.getElem?_eq_none (by omega)] at hrow
      cases hrow
    by_cases hii : i = i2
    · subst hii
      simp only [List.getElem?_set_self hi, true_and, hrow]
      by_cases hjj : j = j2
      · subst hjj
        rw [List.getElem?_set_self', if_pos rfl]
        rfl
      · simp [hjj, List.getElem?_set_ne hjj]
    · simp [hii, List.getElem?_set_ne hii]

theorem AdjMat.shaped_set {nodes : Nat} {m : AdjMat} (h : m.Shaped nodes) (i j : Nat)
    (b : Bool) : (m.set i j b).Shaped nodes := by
  unfold AdjMat.set
  cases hrow : m[i]? with
  | none => simpa using h
  | some row =>
    refine ⟨by simpa using h.1, ?_⟩
    intro i2 row2 h2
    rw [List.getElem?_set] at h2
    by_cases hii : i = i2
    · subst hii
      simp only [if_true] at h2
      split at h2
      · cases h2
        simpa using h.2 i row hrow
      · cases h2
    · simp only [hii, if_false] at h2
      exact h.2 i2 row2 h2

theorem AdjMat.shaped_make {nodes : Nat} (h : nodes < NODE_MOD) :
    (make_adj_mat nodes).Shaped nodes := by
  refine ⟨by simp [make_adj_mat], ?_⟩
  intro i row hrow
  simp only [make_adj_mat, List.getElem?_map, List.getElem?_range, Option.map_eq_some'] at hrow
  obtain ⟨k, hk, rfl⟩ := hrow
  have hik : i < nodes ∧ k = i := by
    by_cases hi : i < nodes
    · rw [List.getElem?_range hi] at hk
      exact ⟨hi, by cases hk; rfl⟩
    · rw [List.getElem?_eq_none (by simpa using hi)] at hk
      cases hk
  obtain ⟨hi, rfl⟩ := hik
  rw [List.length_replicate, sub32_of_le hi.le h, sub32_of_le (by omega) (by omega)]

theorem AdjMat.get?_isSome {nodes : Nat} {m : AdjMat} (h : m.Shaped nodes) (i j : Nat) :
    (m.get? i j).isSome = true ↔ i < nodes ∧ j < nodes - i - 1 := by
  unfold AdjMat.get?
  cases hrow : m[i]? with
  | none =>
    have : ¬ i < nodes := by
      intro hi
      rw [List.getElem?_eq_getElem (by rw [h.1]; exact hi)] at hrow
      cases hrow
    simp [this]
  | some row =>
    have hi : i < nodes := by
      by_contra hcon
      rw [List.getElem?_eq_none (by rw [h.1]; omega)] at hrow
      cases hrow
    have hl := h.2 i row hrow
    simp only [hi, true_and]
    rw [← hl]
    by_cases hj : j < row.length
    · simp [List.getElem?_eq_getElem hj, hj]
    · simp [List.getElem?_eq_none (Nat.le_of_not_lt hj), hj]

theorem AdjMat.make_get? {nodes : Nat} (i j : Nat) (c : Bool)
    (hc : (make_adj_mat nodes).get? i j = some c) : c = false := by
  unfold AdjMat.get? make_adj_mat at hc
  simp only [List.getElem?_map] at hc
  cases hr : (List.range nodes)[i]? with
  | none => simp [hr] at hc
  | some k =>
    simp only [hr, Option.map_some'] at hc
    rw [List.getElem?_replicate] at hc
    split at hc
    · cases hc; rfl
    · cases hc

/-! ## The storage of the table -/

theorem read_cell_of_get? (st : ValidatorState) (i j : Nat) (c : Bool)
    (h : st.adj_mat.get? i j = some c) : read_cell st i j = some c := by
  simp [read_cell, h]

theorem write_cell_of_get? (st : ValidatorState) (i j : Nat) (b c : Bool)
    (h : st.adj_mat.get? i j = some c) :
    write_cell st i j b = { st with adj_mat := st.adj_mat.set i j b } := by
  simp [write_cell, h]

theorem write_cell_total_checked (st : ValidatorState) (i j : Nat) (b : Bool) :
    (write_cell st i j b).total_checked = st.total_checked := by
  unfold write_cell
  split <;> rfl

theorem write_cell_err (st : ValidatorState) (i j : Nat) (b : Bool) :
    (write_cell st i j b).err = st.err := by
  unfold write_cell
  split <;> rfl

theorem write_cell_log (st : ValidatorState) (i j : Nat) (b : Bool) :
    (write_cell st i j b).log = st.log := by
  unfold write_cell
  split <;> rfl

theorem write_cell_shaped {n : Nat} (st : ValidatorState) (i j : Nat) (b : Bool)
    (h : st.adj_mat.Shaped n) : (write_cell st i j b).adj_mat.Shaped n := by
  unfold write_cell
  split
  · exact AdjMat.shaped_set h _ _ _
  · exact h

theorem write_cell_total (st : ValidatorState) (c i j : Nat) (b : Bool) :
    write_cell { st with total_checked := c } i j b =
      { write_cell st i j b with total_checked := c } := by
  unfold write_cell
  simp only
  split <;> rfl

/-! ## One record -/

theorem process_update_breakpoint (nodes e : Nat) (st : ValidatorState)
    (upd : GraphStreamUpdate) (h : upd.type = BREAKPOINT) :
    process_update nodes e st upd = .ok st := by
  simp [process_update, h]

theorem process_update_self_loop (nodes e : Nat) (st : ValidatorState)
    (upd : GraphStreamUpdate) (h : upd.type ≠ BREAKPOINT) (heq : upd.edge.src = upd.edge.dst) :
    process_update nodes e st upd =
      .ok { st with
            log := st.log ++ [Finding.equalSrcDst (add64 st.total_checked e) upd.edge upd.type],
            err := true } := by
  simp [process_update, h, heq]

theorem in_range_cell {nodes : Nat} {upd : GraphStreamUpdate} (hV : nodes < NODE_MOD)
    (hr : in_range nodes upd) :
    canonical upd.edge =
        (min upd.edge.src upd.edge.dst,
          max upd.edge.src upd.edge.dst - min upd.edge.src upd.edge.dst - 1) ∧
      min upd.edge.src upd.edge.dst < nodes ∧
      max upd.edge.src upd.edge.dst - min upd.edge.src upd.edge.dst - 1 <
        nodes - min upd.edge.src upd.edge.dst - 1 := by
  obtain ⟨hne, hs, hd⟩ := hr
  refine ⟨canonical_of_ne _ hne (by omega) (by omega), ?_, ?_⟩
  · exact lt_of_le_of_lt (min_le_left _ _) hs
  · rcases Nat.lt_or_gt_of_ne hne with h | h
    · rw [min_eq_left h.le, max_eq_right h.le]; omega
    · rw [min_eq_right h.le, max_eq_left h.le]; omega

theorem process_update_in_range (nodes e : Nat) (st : ValidatorState)
    (upd : GraphStreamUpdate) (hV : nodes < NODE_MOD) (hs : st.adj_mat.Shaped nodes)
    (hbp : upd.type ≠ BREAKPOINT) (hr : in_range nodes upd) :
    ∃ cell,
      st.adj_mat.get? (min upd.edge.src upd.edge.dst)
          (max upd.edge.src upd.edge.dst - min upd.edge.src upd.edge.dst - 1) = some cell ∧
      process_update nodes e st upd =
        .ok { adj_mat := st.adj_mat.set (min upd.edge.src upd.edge.dst)
                (max upd.edge.src upd.edge.dst - min upd.edge.src upd.edge.dst - 1) (!cell),
              err := st.err || decide (boolToNat cell ≠ upd.type),
              total_checked := st.total_checked,
              log := if boolToNat cell ≠ upd.type then
                  st.log ++ [Finding.incorrectType (add64 st.total_checked e) upd.edge
                    upd.type cell]
                else st.log,
              slack := st.slack } := by
  obtain ⟨hc, hlo, hoff⟩ := in_range_cell hV hr
  have hsome := (AdjMat.get?_isSome hs _ _).2 ⟨hlo, hoff⟩
  obtain ⟨cell, hcell⟩ := Option.isSome_iff_exists.1 hsome
  refine ⟨cell, hcell, ?_⟩
  obtain ⟨hne, hsrc, hdst⟩ := hr
  unfold process_update
  simp only [hbp, hne, if_false, hc, read_cell_of_get? st _ _ cell hcell]
  have hge : ¬ (upd.edge.src ≥ nodes ∨ upd.edge.dst ≥ nodes) := by omega
  simp only [hge, if_false]
  by_cases hm : boolToNat cell = upd.type
  · simp only [hm, ne_eq, not_true_eq_false, if_false]
    rw [write_cell_of_get? st _ _ _ cell hcell]
    simp
  · simp only [hm, ne_eq, not_false_eq_true, if_true]
    rw [write_cell_of_get?
      { st with
        log := st.log ++
          [Finding.incorrectType (add64 st.total_checked e) upd.edge upd.type cell],
        err := true } _ _ _ cell hcell]
    simp

theorem process_update_ok {nodes e : Nat} {st st2 : ValidatorState} {upd : GraphStreamUpdate}
    (h : process_update nodes e st upd = .ok st2) :
    st2.total_checked = st.total_checked ∧ (st.err = true → st2.err = true) ∧
      (∀ n, st.adj_mat.Shaped n → st2.adj_mat.Shaped n) ∧
      ((st.err = false ↔ st.log = []) → (st2.err = false ↔ st2.log = [])) := by
  unfold process_update at h
  simp only at h
  split at h
  · cases h
    exact ⟨rfl, id, fun _ hn => hn, id⟩
  · split at h
    · cases h
      exact ⟨rfl, fun _ => rfl, fun _ hn => hn, fun _ => by simp⟩
    · split at h
      · cases h
      · rename_i cell hcell
        by_cases hm : boolToNat cell = upd.type
        · simp only [hm, ne_eq, not_true_eq_false, if_false] at h
          split at h
          · cases h
            exact ⟨write_cell_total_checked _ _ _ _, fun _ => rfl,
              fun n hn => write_cell_shaped _ _ _ _ hn, fun _ => by simp⟩
          · cases h
            refine ⟨write_cell_total_checked _ _ _ _, fun x => ?_,
              fun n hn => write_cell_shaped _ _ _ _ hn, fun x => ?_⟩
            · rw [write_cell_err]; exact x
            · rw [write_cell_err, write_cell_log]; exact x
        · simp only [hm, ne_eq, not_false_eq_true, if_true] at h
          split at h
          · cases h
            exact ⟨write_cell_total_checked _ _ _ _, fun _ => rfl,
              fun n hn => write_cell_shaped _ _ _ _ hn, fun _ => by simp⟩
          · cases h
            refine ⟨write_cell_total_checked _ _ _ _, fun _ => ?_,
              fun n hn => write_cell_shaped _ _ _ _ hn, fun _ => ?_⟩
            · rw [write_cell_err]
            · rw [write_cell_err, write_cell_log]; simp

theorem process_update_not_in_range {nodes e : Nat} {st st2 : ValidatorState}
    {upd : GraphStreamUpdate} (hbp : upd.type ≠ BREAKPOINT) (hr : ¬ in_range nodes upd)
    (h : process_update nodes e st upd = .ok st2) : st2.err = true := by
  unfold process_update at h
  simp only [hbp, if_false] at h
  split at h
  · cases h; rfl
  · rename_i hne
    have hge : upd.edge.src ≥ nodes ∨ upd.edge.dst ≥ nodes := by
      unfold in_range at hr
      by_contra hcon
      exact hr ⟨hne, by omega, by omega⟩
    split at h
    · cases h
    · simp only [hge, if_true] at h
      cases h; rfl

/-! ## One batch -/

theorem add64_add64 (a b c : Nat) : add64 (add64 a b) c = add64 a (b + c) := by
  unfold add64 SIZE_MOD
  omega

theorem process_update_shift (nodes e e2 c : Nat) (st : ValidatorState)
    (upd : GraphStreamUpdate) (h : add64 c e = add64 st.total_checked e2) :
    process_update nodes e { st with total_checked := c } upd =
      match process_update nodes e2 st upd with
      | .error a => .error a
      | .ok s => .ok { s with total_checked := c } := by
  have hread : read_cell { st with total_checked := c } (canonical upd.edge).1
      (canonical upd.edge).2 = read_cell st (canonical upd.edge).1 (canonical upd.edge).2 :=
    rfl
  unfold process_update
  simp only [h, hread]
  split
  · rfl
  · split
    · rfl
    · split
      · rfl
      · rename_i cell hcell
        by_cases hm : boolToNat cell = upd.type
        · simp only [hm, ne_eq, not_true_eq_false, if_false, write_cell_total]
          split <;> rfl
        · simp only [hm, ne_eq, not_false_eq_true, if_true]
          have hw := write_cell_total
            { st with
              log := st.log ++
                [Finding.incorrectType (add64 st.total_checked e2) upd.edge upd.type cell],
              err := true } c (canonical upd.edge).1 (canonical upd.edge).2 (!cell)
          simp only at hw
          rw [hw]
          split <;> rfl

theorem process_batch_shift (nodes k : Nat) (recs : List GraphStreamUpdate) :
    ∀ (e : Nat) (st : ValidatorState),
      process_batch nodes e { st with total_checked := add64 st.total_checked k } recs =
        match process_batch nodes (k + e) st recs with
        | .error a => .error a
        | .ok s => .ok { s with total_checked := add64 st.total_checked k } := by
  induction recs with
  | nil => intro e st; rfl
  | cons upd rest ih =>
    intro e st
    simp only [process_batch]
    rw [process_update_shift nodes e (k + e) _ st upd (add64_add64 _ _ _)]
    cases hu : process_update nodes (k + e) st upd with
    | error a => rfl
    | ok s =>
      have htc := (process_update_ok hu).1
      simp only
      rw [← htc]
      exact ih (e + 1) s

theorem process_batch_append (nodes : Nat) (xs ys : List GraphStreamUpdate) :
    ∀ (e : Nat) (st : ValidatorState),
      process_batch nodes e st (xs ++ ys) =
        match process_batch nodes e st xs with
        | .error a => .error a
        | .ok s => process_batch nodes (e + xs.length) s ys := by
  induction xs with
  | nil => intro e st; simp [process_batch]
  | cons upd rest ih =>
    intro e st
    simp only [List.cons_append, process_batch, List.length_cons]
    cases hu : process_update nodes e st upd with
    | error a => rfl
    | ok s =>
      simp only
      have hrec := ih (e + 1) s
      have hlen : e + 1 + rest.length = e + (rest.length + 1) := by omega
      rw [hlen] at hrec
      exact hrec

theorem process_batch_ok {nodes : Nat} {recs : List GraphStreamUpdate} :
    ∀ {e : Nat} {st st2 : ValidatorState}, process_batch nodes e st recs = .ok st2 →
      st2.total_checked = st.total_checked ∧ (st.err = true → st2.err = true) ∧
        (∀ n, st.adj_mat.Shaped n → st2.adj_mat.Shaped n) ∧
        ((st.err = false ↔ st.log = []) → (st2.err = false ↔ st2.log = [])) := by
  induction recs with
  | nil =>
    intro e st st2 h
    simp only [process_batch] at h
    cases h
    exact ⟨rfl, id, fun _ hn => hn, id⟩
  | cons upd rest ih =>
    intro e st st2 h
    simp only [process_batch] at h
    cases hu : process_update nodes e st upd with
    | error a => rw [hu] at h; cases h
    | ok s =>
      rw [hu] at h
      obtain ⟨h1, h2, h3, h4⟩ := process_update_ok hu
      obtain ⟨k1, k2, k3, k4⟩ := ih h
      exact ⟨k1.trans h1, fun x => k2 (h2 x), fun n x => k3 n (h3 n x), fun x => k4 (h4 x)⟩

theorem process_batch_total (nodes : Nat) (hV : nodes < NODE_MOD)
    (recs : List GraphStreamUpdate) :
    ∀ (e : Nat) (st : ValidatorState), st.adj_mat.Shaped nodes →
      (∀ r ∈ recs, r.type ≠ BREAKPOINT → r.edge.src ≠ r.edge.dst → in_range nodes r) →
      ∃ st2, process_batch nodes e st recs = .ok st2 := by
  induction recs with
  | nil => intro e st _ _; exact ⟨st, rfl⟩
  | cons upd rest ih =>
    intro e st hs hr
    simp only [process_batch]
    have hstep : ∃ s, process_update nodes e st upd = .ok s := by
      by_cases hbp : upd.type = BREAKPOINT
      · exact ⟨_, process_update_breakpoint nodes e st upd hbp⟩
      · by_cases heq : upd.edge.src = upd.edge.dst
        · exact ⟨_, process_update_self_loop nodes e st upd hbp heq⟩
        · obtain ⟨cell, _, hc⟩ := process_update_in_range nodes e st upd hV hs hbp
            (hr upd (List.mem_cons_self _ _) hbp heq)
          exact ⟨_, hc⟩
    obtain ⟨s, hu⟩ := hstep
    rw [hu]
    exact ih (e + 1) s ((process_update_ok hu).2.2.1 nodes hs)
      (fun r hmem => hr r (List.mem_cons_of_mem _ hmem))

/-! ## The toggle protocol over a list of records -/

theorem expected_kind_eq (c : Bool) : expected_kind c = boolToNat c := by
  cases c <;> rfl

theorem kinds_on_cons_of_on (a b : Nat) (r : GraphStreamUpdate)
    (rs : List GraphStreamUpdate) (h : on_edge a b r = true) :
    kinds_on a b (r :: rs) = r.type :: kinds_on a b rs := by
  simp [kinds_on, List.filter_cons, h]

theorem kinds_on_cons_of_not_on (a b : Nat) (r : GraphStreamUpdate)
    (rs : List GraphStreamUpdate) (h : on_edge a b r = false) :
    kinds_on a b (r :: rs) = kinds_on a b rs := by
  simp [kinds_on, List.filter_cons, h]

theorem on_edge_breakpoint (a b : Nat) (r : GraphStreamUpdate) (h : r.type = BREAKPOINT) :
    on_edge a b r = false := by
  simp [on_edge, h]

theorem on_edge_iff (a b : Nat) (r : GraphStreamUpdate) :
    on_edge a b r = true ↔
      r.type ≠ BREAKPOINT ∧ min r.edge.src r.edge.dst = a ∧ max r.edge.src r.edge.dst = b := by
  simp [on_edge, and_assoc]

theorem records_in_range_cons (nodes : Nat) (r : GraphStreamUpdate)
    (rs : List GraphStreamUpdate) :
    records_in_range nodes (r :: rs) ↔
      (r.type ≠ BREAKPOINT → in_range nodes r) ∧ records_in_range nodes rs := by
  simp [records_in_range]

theorem process_batch_err_of_err {nodes : Nat} {recs : List GraphStreamUpdate} {e : Nat}
    {st : ValidatorState} (herr : st.err = true) :
    ¬ ∃ st2, process_batch nodes e st recs = .ok st2 ∧ st2.err = false := by
  rintro ⟨st2, h, hf⟩
  have := (process_batch_ok h).2.1 herr
  rw [this] at hf
  cases hf

theorem process_batch_success_iff (nodes : Nat) (hV : nodes < NODE_MOD)
    (recs : List GraphStreamUpdate) :
    ∀ (e : Nat) (st : ValidatorState), st.adj_mat.Shaped nodes → st.err = false →
      ((∃ st2, process_batch nodes e st recs = .ok st2 ∧ st2.err = false) ↔
        records_in_range nodes recs ∧
          ∀ a b, a < b → alternates_from (st.adj_mat.present a b) (kinds_on a b recs)) := by
  induction recs with
  | nil =>
    intro e st _ herr
    simp [process_batch, herr, records_in_range, kinds_on, alternates_from]
  | cons r rs ih =>
    intro e st hs herr
    rw [records_in_range_cons]
    by_cases hbp : r.type = BREAKPOINT
    · simp only [process_batch, process_update_breakpoint nodes e st r hbp]
      rw [ih (e + 1) st hs herr]
      have hk : ∀ a b, kinds_on a b (r :: rs) = kinds_on a b rs := fun a b =>
        kinds_on_cons_of_not_on a b r rs (on_edge_breakpoint a b r hbp)
      simp only [hk, hbp, ne_eq, not_true_eq_false, false_implies, true_and]
    · by_cases hr : in_range nodes r
      · obtain ⟨cell, hcell, hstep⟩ := process_update_in_range nodes e st r hV hs hbp hr
        obtain ⟨_, hlo, hoff⟩ := in_range_cell hV hr
        have hlt : min r.edge.src r.edge.dst < max r.edge.src r.edge.dst :=
          min_lt_max_of_ne hr.1
        have hon : on_edge (min r.edge.src r.edge.dst) (max r.edge.src r.edge.dst) r = true :=
          (on_edge_iff _ _ _).2 ⟨hbp, rfl, rfl⟩
        have hpres : st.adj_mat.present (min r.edge.src r.edge.dst)
            (max r.edge.src r.edge.dst) = cell := by
          simp [AdjMat.present, hcell]
        simp only [process_batch, hstep]
        by_cases hm : boolToNat cell = r.type
        · have hs2 : (st.adj_mat.set (min r.edge.src r.edge.dst)
              (max r.edge.src r.edge.dst - min r.edge.src r.edge.dst - 1) (!cell)).Shaped nodes :=
            AdjMat.shaped_set hs _ _ _
          rw [ih (e + 1) _ hs2 (by simp [herr, hm])]
          simp only [hr, implies_true, true_and]
          refine and_congr_right (fun _ => ?_)
          refine forall_congr' (fun a => forall_congr' (fun b => imp_congr_right (fun hab => ?_)))
          by_cases hon2 : on_edge a b r = true
          · obtain ⟨_, ha, hb⟩ := (on_edge_iff _ _ _).1 hon2
            subst ha; subst hb
            rw [kinds_on_cons_of_on _ _ r rs hon2]
            simp only [alternates_from, hpres, expected_kind_eq, hm, true_and]
            simp [AdjMat.present, AdjMat.get?_set, hcell]
          · have hon3 : on_edge a b r = false := by simpa using hon2
            rw [kinds_on_cons_of_not_on _ _ r rs hon3]
            have hne : ¬ (min r.edge.src r.edge.dst = a ∧
                max r.edge.src r.edge.dst - min r.edge.src r.edge.dst - 1 = b - a - 1) := by
              rintro ⟨h1, h2⟩
              apply hon2
              exact (on_edge_iff _ _ _).2 ⟨hbp, h1, by omega⟩
            simp [AdjMat.present, AdjMat.get?_set, hne]
        · have hleft : ¬ ∃ st2, process_batch nodes (e + 1)
              { adj_mat := st.adj_mat.set (min r.edge.src r.edge.dst)
                  (max r.edge.src r.edge.dst - min r.edge.src r.edge.dst - 1) (!cell),
                err := st.err || decide (boolToNat cell ≠ r.type),
                total_checked := st.total_checked,
                log := if boolToNat cell ≠ r.type then
                    st.log ++ [Finding.incorrectType (add64 st.total_checked e) r.edge
                      r.type cell]
                  else st.log,
                slack := st.slack } rs = .ok st2 ∧ st2.err = false :=
            process_batch_err_of_err (by simp [hm])
          refine iff_of_false hleft ?_
          rintro ⟨_, halt⟩
          have h1 := halt _ _ hlt
          rw [kinds_on_cons_of_on _ _ r rs hon, hpres] at h1
          simp only [alternates_from, expected_kind_eq] at h1
          exact hm h1.1.symm
      · refine iff_of_false ?_ (fun h => hr (h.1.1 hbp))
        rintro ⟨st2, h, hf⟩
        simp only [process_batch] at h
        cases hu : process_update nodes e st r with
        | error a => rw [hu] at h; cases h
        | ok s =>
          rw [hu] at h
          exact process_batch_err_of_err (process_update_not_in_range hbp hr hu) ⟨st2, h, hf⟩

/-! ## The loop over the batches -/

theorem consume_batch_eq (nodes : Nat) (st : ValidatorState) (buf : List GraphStreamUpdate) :
    consume_batch nodes st buf =
      match process_batch nodes 0 st buf with
      | .error a => .error a
      | .ok s => .ok { s with total_checked := add64 st.total_checked buf.length } := by
  unfold consume_batch
  cases h : process_batch nodes 0 st buf with
  | error a => rfl
  | ok s => simp only [(process_batch_ok h).1]

theorem validate_loop_flat (nodes edges : Nat) (t : List GraphStreamUpdate)
    (post : List (List GraphStreamUpdate)) (ht : is_terminal t = true) :
    ∀ (pre : List (List GraphStreamUpdate)) (st : ValidatorState),
      (∀ b ∈ pre, is_terminal b = false) →
      validate_loop nodes edges st (pre ++ t :: post) =
        match process_batch nodes 0 st (pre.flatten ++ t) with
        | .error a => .error a
        | .ok s => .ok (terminal_check edges
            { s with total_checked := add64 st.total_checked (pre.flatten ++ t).length }, post) := by
  intro pre
  induction pre with
  | nil =>
    intro st _
    simp only [List.nil_append, List.flatten_nil, validate_loop, consume_batch_eq]
    cases h : process_batch nodes 0 st t with
    | error a => rfl
    | ok s => simp [ht]
  | cons b pre ih =>
    intro st hpre
    have hb : is_terminal b = false := hpre b (List.mem_cons_self _ _)
    have hpre2 : ∀ c ∈ pre, is_terminal c = false := fun c hc =>
      hpre c (List.mem_cons_of_mem _ hc)
    simp only [List.cons_append, validate_loop, consume_batch_eq, List.flatten_cons,
      List.append_assoc]
    rw [process_batch_append]
    cases h : process_batch nodes 0 st b with
    | error a => rfl
    | ok s =>
      have htc := (process_batch_ok h).1
      simp only [hb, Bool.false_eq_true, if_false]
      refine (ih { s with total_checked := add64 st.total_checked b.length } hpre2).trans ?_
      simp only
      rw [← htc, process_batch_shift nodes b.length (pre.flatten ++ t) 0 s]
      simp only [Nat.add_zero, Nat.zero_add]
      cases h2 : process_batch nodes b.length s (pre.flatten ++ t) with
      | error a => simp only
      | ok s2 => simp only [add64_add64, List.length_append]

theorem validate_loop_ok_split (nodes edges : Nat) :
    ∀ (batches : List (List GraphStreamUpdate)) (st s : ValidatorState)
      (rest : List (List GraphStreamUpdate)),
      validate_loop nodes edges st batches = .ok (s, rest) →
      ∃ pre t, batches = pre ++ t :: rest ∧ is_terminal t = true ∧
        ∀ b ∈ pre, is_terminal b = false := by
  intro batches
  induction batches with
  | nil => intro st s rest h; simp [validate_loop] at h
  | cons b bs ih =>
    intro st s rest h
    simp only [validate_loop] at h
    cases hc : consume_batch nodes st b with
    | error a => rw [hc] at h; cases h
    | ok s1 =>
      rw [hc] at h
      simp only at h
      by_cases hb : is_terminal b = true
      · simp only [hb, if_true, Except.ok.injEq, Prod.mk.injEq] at h
        exact ⟨[], b, by simp [h.2], hb, by simp⟩
      · simp only [hb, if_false] at h
        obtain ⟨pre, t, h1, h2, h3⟩ := ih s1 s rest h
        refine ⟨b :: pre, t, by simp [h1], h2, ?_⟩
        intro c hc2
        rcases List.mem_cons.1 hc2 with rfl | hc3
        · simpa using hb
        · exact h3 c hc3

theorem validate_loop_post (nodes edges : Nat) (t : List GraphStreamUpdate)
    (post : List (List GraphStreamUpdate)) (ht : is_terminal t = true)
    (pre : List (List GraphStreamUpdate)) (st : ValidatorState)
    (hpre : ∀ b ∈ pre, is_terminal b = false) :
    validate_loop nodes edges st (pre ++ t :: post) =
      (validate_loop nodes edges st (pre ++ [t])).map (fun r => (r.1, post)) := by
  rw [validate_loop_flat nodes edges t post ht pre st hpre,
    validate_loop_flat nodes edges t [] ht pre st hpre]
  cases process_batch nodes 0 st (pre.flatten ++ t) with
  | error a => simp only [Except.map]
  | ok s => simp only [Except.map]

theorem is_terminal_iff (buf : List GraphStreamUpdate) :
    is_terminal buf = true ↔ ∃ upd, buf = [upd] ∧ upd.type = BREAKPOINT := by
  unfold is_terminal
  split
  · rename_i upd
    simp
  · rename_i h
    constructor
    · intro hf; cases hf
    · rintro ⟨upd, rfl, _⟩
      exact absurd rfl (h upd)

theorem terminal_check_success (edges : Nat) (s : ValidatorState)
    (post : List (List GraphStreamUpdate)) (hinv : s.err = false ↔ s.log = []) :
    reports_success (.ok (terminal_check edges s, post)) = true ↔
      s.err = false ∧ sub64 s.total_checked 2 = edges := by
  unfold reports_success terminal_check
  by_cases hm : sub64 s.total_checked 2 = edges
  · simp only [hm, ne_eq, not_true_eq_false, if_false, and_true]
    cases herr : s.err with
    | true => simp
    | false => simp [hinv.1 herr]
  · simp [hm]

/-! ## The whole validation pass -/

theorem make_adj_mat_present (nodes a b : Nat) : (make_adj_mat nodes).present a b = false := by
  unfold AdjMat.present
  cases h : (make_adj_mat nodes).get? a (b - a - 1) with
  | none => rfl
  | some c => simp [AdjMat.make_get? _ _ c h]

theorem sub64_add64_zero (n : Nat) : sub64 (add64 0 n) 2 = sub64 n 2 := by
  unfold sub64 add64 SIZE_MOD
  omega

theorem initial_success_iff (nodes : Nat) (hV : nodes < NODE_MOD)
    (recs : List GraphStreamUpdate) :
    (∃ st2, process_batch nodes 0 (initial_state nodes) recs = .ok st2 ∧ st2.err = false) ↔
      records_in_range nodes recs ∧ ∀ a b, a < b → alternates (kinds_on a b recs) := by
  rw [process_batch_success_iff nodes hV recs 0 (initial_state nodes)
    (AdjMat.shaped_make hV) rfl]
  simp only [initial_state, make_adj_mat_present, alternates]

/-- C1: a stream whose first terminal batch is `t` (the batches `pre` before it are
not terminal) is reported valid, with no diagnostic written and the error flag
down, if and only if, among the records consumed, (i) every record that is not
a breakpoint has distinct endpoints below `V`, (ii) the kinds of the records of
every unordered edge alternate Insert, Delete, Insert, ... and (iii) the
terminal check `total_checked - 2 == E` holds, `total_checked` being the number
of records consumed. -/
theorem validate_success_iff (V E : Nat) (pre : List (List GraphStreamUpdate))
    (t : List GraphStreamUpdate) (post : List (List GraphStreamUpdate))
    (hV : V < NODE_MOD) (hpre : ∀ b ∈ pre, is_terminal b = false)
    (ht : is_terminal t = true) :
    (reports_success (validate V E (pre ++ t :: post)) = true ↔
      records_in_range V (pre ++ [t]).flatten ∧
        (∀ a b, a < b → alternates (kinds_on a b (pre ++ [t]).flatten)) ∧
        sub64 (pre ++ [t]).flatten.length 2 = E) ∧
      (∀ st rest, validate V E (pre ++ t :: post) = .ok (st, rest) →
        rest = post ∧ st.total_checked = (pre ++ [t]).flatten.length % SIZE_MOD) := by
  have hflat : (pre ++ [t]).flatten = pre.flatten ++ t := by simp
  rw [hflat]
  unfold validate
  rw [validate_loop_flat V E t post ht pre (initial_state V) hpre]
  have hiff := initial_success_iff V hV (pre.flatten ++ t)
  cases h : process_batch V 0 (initial_state V) (pre.flatten ++ t) with
  | error a =>
    rw [h] at hiff
    refine ⟨?_, ?_⟩
    · simp only [reports_success, Bool.false_eq_true, false_iff]
      intro hc
      obtain ⟨st2, h2, _⟩ := hiff.2 ⟨hc.1, hc.2.1⟩
      cases h2
    · intro st rest hc
      cases hc
  | ok s =>
    rw [h] at hiff
    obtain ⟨htc, _, _, hinv⟩ := process_batch_ok h
    have hinv2 : s.err = false ↔ s.log = [] := hinv (by simp [initial_state])
    refine ⟨?_, ?_⟩
    · simp only
      rw [terminal_check_success E
        { s with total_checked :=
            add64 (initial_state V).total_checked (pre.flatten ++ t).length } post hinv2]
      simp only [initial_state, sub64_add64_zero]
      rw [← and_assoc, ← hiff]
      constructor
      · rintro ⟨h1, h2⟩
        exact ⟨⟨s, rfl, h1⟩, h2⟩
      · rintro ⟨⟨s2, h1, h2⟩, h3⟩
        cases h1
        exact ⟨h2, h3⟩
    · intro st rest hc
      simp only [Except.ok.injEq, Prod.mk.injEq] at hc
      obtain ⟨h1, h2⟩ := hc
      refine ⟨h2.symm, ?_⟩
      rw [← h1]
      unfold terminal_check
      split <;> simp [initial_state, add64]

/-- Witness of C1: three vertices, two declared updates, the batch
`insert (0,1), delete (1,0), breakpoint` followed by the terminal breakpoint. -/
theorem validate_success_iff_witness :
    (reports_success (validate 3 2 (sample_batches ++ [breakpoint_rec] :: [])) = true ↔
      records_in_range 3 (sample_batches ++ [[breakpoint_rec]]).flatten ∧
        (∀ a b, a < b →
          alternates (kinds_on a b (sample_batches ++ [[breakpoint_rec]]).flatten)) ∧
        sub64 (sample_batches ++ [[breakpoint_rec]]).flatten.length 2 = 2) ∧
      (∀ st rest,
        validate 3 2 (sample_batches ++ [breakpoint_rec] :: []) = .ok (st, rest) →
        rest = [] ∧ st.total_checked =
          (sample_batches ++ [[breakpoint_rec]]).flatten.length % SIZE_MOD) :=
  validate_success_iff 3 2 sample_batches [breakpoint_rec] [] (by decide) (by decide)
    (by decide)

/-- C2: for a record that is not a breakpoint, with distinct endpoints below `V`,
and any table of the shape of a `V`-vertex stream, the record is processed and
the type-mismatch diagnostic is written for it if and only if it is not the
case that the kind is Insert with the cell `false` or Delete with the cell
`true`; a kind that is neither Insert nor Delete is always flagged, a flagged
record raises the error flag, and no other diagnostic is written. -/
theorem type_mismatch_iff (V e : Nat) (st : ValidatorState) (upd : GraphStreamUpdate)
    (hV : V < NODE_MOD) (hs : st.adj_mat.Shaped V) (hbp : upd.type ≠ BREAKPOINT)
    (hr : in_range V upd) :
    ∃ cell st2 new,
      st.adj_mat.get? (min upd.edge.src upd.edge.dst)
          (max upd.edge.src upd.edge.dst - min upd.edge.src upd.edge.dst - 1) = some cell ∧
      process_update V e st upd = .ok st2 ∧ st2.log = st.log ++ new ∧
      (Finding.incorrectType (add64 st.total_checked e) upd.edge upd.type cell ∈ new ↔
        ¬ ((upd.type = INSERT ∧ cell = false) ∨ (upd.type = DELETE ∧ cell = true))) ∧
      (upd.type ≠ INSERT → upd.type ≠ DELETE →
        Finding.incorrectType (add64 st.total_checked e) upd.edge upd.type cell ∈ new) ∧
      (∀ f ∈ new,
        f = Finding.incorrectType (add64 st.total_checked e) upd.edge upd.type cell) ∧
      (new ≠ [] → st2.err = true) ∧ (new = [] → st2.err = st.err) := by
  obtain ⟨cell, hcell, hstep⟩ := process_update_in_range V e st upd hV hs hbp hr
  have hcons : boolToNat cell = upd.type ↔
      ((upd.type = INSERT ∧ cell = false) ∨ (upd.type = DELETE ∧ cell = true)) := by
    cases cell <;> simp [boolToNat, INSERT, DELETE, eq_comm]
  by_cases hm : boolToNat cell = upd.type
  · refine ⟨cell, _, [], hcell, hstep, by simp [hm], ?_, ?_, by simp, by simp, by simp [hm]⟩
    · simp [hcons.1 hm]
    · intro h1 h2
      rcases hcons.1 hm with h | h
      · exact absurd h.1 h1
      · exact absurd h.1 h2
  · refine ⟨cell, _, [Finding.incorrectType (add64 st.total_checked e) upd.edge upd.type cell],
      hcell, hstep, by simp [hm], ?_, by simp, by simp, by simp [hm], by simp⟩
    simp only [List.mem_singleton, true_iff]
    exact fun h => hm (hcons.2 h)

/-- Witness of C2: a record of the unknown kind `3` on the edge `(2,0)` of a
four-vertex stream, on the initial table. -/
theorem type_mismatch_iff_witness :
    ∃ cell st2 new,
      (initial_state 4).adj_mat.get? (min 2 0) (max 2 0 - min 2 0 - 1) = some cell ∧
      process_update 4 0 (initial_state 4) (unknown_rec 2 0) = .ok st2 ∧
      st2.log = (initial_state 4).log ++ new ∧
      (Finding.incorrectType (add64 (initial_state 4).total_checked 0) (unknown_rec 2 0).edge 3 cell ∈ new ↔
        ¬ (((3 : Nat) = INSERT ∧ cell = false) ∨ ((3 : Nat) = DELETE ∧ cell = true))) ∧
      ((3 : Nat) ≠ INSERT → (3 : Nat) ≠ DELETE →
        Finding.incorrectType (add64 (initial_state 4).total_checked 0) (unknown_rec 2 0).edge 3 cell ∈ new) ∧
      (∀ f ∈ new,
        f = Finding.incorrectType (add64 (initial_state 4).total_checked 0) (unknown_rec 2 0).edge 3 cell) ∧
      (new ≠ [] → st2.err = true) ∧ (new = [] → st2.err = (initial_state 4).err) :=
  type_mismatch_iff 4 0 (initial_state 4) (unknown_rec 2 0) (by decide)
    (AdjMat.shaped_make (by decide)) (by decide) ⟨by decide, by decide, by decide⟩

/-- C3: for a record that is not a breakpoint, with distinct endpoints below `V`,
whatever its kind (so whether or not the type-mismatch diagnostic is written),
processing the record negates the cell at row `min(src,dst)` and column
`max(src,dst) - min(src,dst) - 1` and leaves every other cell, and the shape of
the table, unchanged. -/
theorem toggles_cell (V e : Nat) (st : ValidatorState) (upd : GraphStreamUpdate)
    (hV : V < NODE_MOD) (hs : st.adj_mat.Shaped V) (hbp : upd.type ≠ BREAKPOINT)
    (hr : in_range V upd) :
    ∃ cell st2,
      st.adj_mat.get? (min upd.edge.src upd.edge.dst)
          (max upd.edge.src upd.edge.dst - min upd.edge.src upd.edge.dst - 1) = some cell ∧
      process_update V e st upd = .ok st2 ∧
      st2.adj_mat.get? (min upd.edge.src upd.edge.dst)
          (max upd.edge.src upd.edge.dst - min upd.edge.src upd.edge.dst - 1) = some (!cell) ∧
      (∀ i j, ¬ (i = min upd.edge.src upd.edge.dst ∧
          j = max upd.edge.src upd.edge.dst - min upd.edge.src upd.edge.dst - 1) →
        st2.adj_mat.get? i j = st.adj_mat.get? i j) ∧
      st2.adj_mat.Shaped V := by
  obtain ⟨cell, hcell, hstep⟩ := process_update_in_range V e st upd hV hs hbp hr
  refine ⟨cell, _, hcell, hstep, ?_, ?_, AdjMat.shaped_set hs _ _ _⟩
  · simp [AdjMat.get?_set, hcell]
  · intro i j hne
    have hne2 : ¬ (min upd.edge.src upd.edge.dst = i ∧
        max upd.edge.src upd.edge.dst - min upd.edge.src upd.edge.dst - 1 = j) :=
      fun h => hne ⟨h.1.symm, h.2.symm⟩
    simp only [AdjMat.get?_set, hne2, if_false]

/-- Witness of C3: a delete of the absent edge `(3,1)` of a four-vertex stream
(a record that is flagged) still negates the cell at row 1, column 1. -/
theorem toggles_cell_witness :
    ∃ cell st2,
      (initial_state 4).adj_mat.get? (min 3 1) (max 3 1 - min 3 1 - 1) = some cell ∧
      process_update 4 0 (initial_state 4) (delete_rec 3 1) = .ok st2 ∧
      st2.adj_mat.get? (min 3 1) (max 3 1 - min 3 1 - 1) = some (!cell) ∧
      (∀ i j, ¬ (i = min 3 1 ∧ j = max 3 1 - min 3 1 - 1) →
        st2.adj_mat.get? i j = (initial_state 4).adj_mat.get? i j) ∧
      st2.adj_mat.Shaped 4 :=
  toggles_cell 4 0 (initial_state 4) (delete_rec 3 1) (by decide)
    (AdjMat.shaped_make (by decide)) (by decide) ⟨by decide, by decide, by decide⟩

theorem validate_total (V E : Nat) (hV : V < NODE_MOD) (pre : List (List GraphStreamUpdate))
    (t : List GraphStreamUpdate) (post : List (List GraphStreamUpdate))
    (hpre : ∀ b ∈ pre, is_terminal b = false) (ht : is_terminal t = true)
    (hr : ∀ r ∈ pre.flatten, r.type ≠ BREAKPOINT → r.edge.src ≠ r.edge.dst → in_range V r) :
    ∃ s, process_batch V 0 (initial_state V) (pre.flatten ++ t) = .ok s ∧
      validate V E (pre ++ t :: post) =
        .ok (terminal_check E
          { s with total_checked := add64 0 (pre.flatten ++ t).length }, post) := by
  obtain ⟨upd, rfl, hupd⟩ := (is_terminal_iff t).1 ht
  have hall : ∀ r ∈ pre.flatten ++ [upd], r.type ≠ BREAKPOINT → r.edge.src ≠ r.edge.dst →
      in_range V r := by
    intro r hmem hbp
    rcases List.mem_append.1 hmem with h | h
    · exact hr r h hbp
    · rw [List.mem_singleton] at h
      subst h
      exact absurd hupd hbp
  obtain ⟨s, hs⟩ := process_batch_total V hV (pre.flatten ++ [upd]) 0 (initial_state V)
    (AdjMat.shaped_make hV) hall
  refine ⟨s, hs, ?_⟩
  unfold validate
  rw [validate_loop_flat V E [upd] post ht pre (initial_state V) hpre, hs]
  rfl

/-- C4: the loop ends at the first batch that consists of exactly one record whose
kind is Breakpoint and at no other batch.  Whenever the pass returns, the
batches split into batches that are not terminal, one terminal batch, and the
batches left unread; the result does not depend on the batches after the
terminal one; a batch is terminal exactly when it is one Breakpoint record, so
an empty batch, a single record of another kind and a batch of two or more
records are not; and when no record before the terminal batch is out of range
the pass does return there. -/
theorem stops_at_first_terminal_batch (V E : Nat) :
    (∀ batches st rest, validate V E batches = .ok (st, rest) →
      ∃ pre t, batches = pre ++ t :: rest ∧ is_terminal t = true ∧
        ∀ b ∈ pre, is_terminal b = false) ∧
    (∀ pre t post, (∀ b ∈ pre, is_terminal b = false) → is_terminal t = true →
      validate V E (pre ++ t :: post) =
        (validate V E (pre ++ [t])).map (fun r => (r.1, post))) ∧
    (∀ buf, is_terminal buf = true ↔ ∃ upd, buf = [upd] ∧ upd.type = BREAKPOINT) ∧
    is_terminal [] = false ∧
    (∀ upd, upd.type ≠ BREAKPOINT → is_terminal [upd] = false) ∧
    (∀ u1 u2 rest, is_terminal (u1 :: u2 :: rest) = false) ∧
    (V < NODE_MOD → ∀ pre t post, (∀ b ∈ pre, is_terminal b = false) →
      is_terminal t = true →
      (∀ r ∈ pre.flatten, r.type ≠ BREAKPOINT → r.edge.src ≠ r.edge.dst → in_range V r) →
      ∃ st, validate V E (pre ++ t :: post) = .ok (st, post)) := by
  refine ⟨?_, ?_, is_terminal_iff, rfl, ?_, fun _ _ _ => rfl, ?_⟩
  · intro batches st rest h
    exact validate_loop_ok_split V E batches (initial_state V) st rest h
  · intro pre t post hpre ht
    exact validate_loop_post V E t post ht pre (initial_state V) hpre
  · intro upd h
    simp [is_terminal, h]
  · intro hV pre t post hpre ht hr
    obtain ⟨s, _, h⟩ := validate_total V E hV pre t post hpre ht hr
    exact ⟨_, h⟩

/-- Witness of C4: the batch after the terminal breakpoint is not read. -/
theorem stops_at_first_terminal_batch_witness :
    validate 3 2 (sample_batches ++ [breakpoint_rec] :: [[insert_rec 0 2]]) =
      (validate 3 2 (sample_batches ++ [[breakpoint_rec]])).map
        (fun r => (r.1, [[insert_rec 0 2]])) :=
  (stops_at_first_terminal_batch 3 2).2.1 sample_batches [breakpoint_rec] [[insert_rec 0 2]]
    (by decide) (by decide)

/-! ## The count of records -/

theorem process_update_no_count {nodes e : Nat} {st st2 : ValidatorState}
    {upd : GraphStreamUpdate} (h : process_update nodes e st upd = .ok st2)
    (hlog : ∀ g x, Finding.countMismatch g x ∉ st.log) :
    ∀ g x, Finding.countMismatch g x ∉ st2.log := by
  unfold process_update at h
  simp only at h
  split at h
  · cases h; exact hlog
  · split at h
    · cases h
      intro g x
      simp [hlog g x]
    · split at h
      · cases h
      · rename_i cell hcell
        by_cases hm : boolToNat cell = upd.type
        · simp only [hm, ne_eq, not_true_eq_false, if_false] at h
          split at h
          · cases h
            intro g x
            simp [write_cell_log, hlog g x]
          · cases h
            intro g x
            simp [write_cell_log, hlog g x]
        · simp only [hm, ne_eq, not_false_eq_true, if_true] at h
          split at h
          · cases h
            intro g x
            simp [write_cell_log, hlog g x]
          · cases h
            intro g x
            simp [write_cell_log, hlog g x]

theorem process_batch_no_count {nodes : Nat} {recs : List GraphStreamUpdate} :
    ∀ {e : Nat} {st st2 : ValidatorState}, process_batch nodes e st recs = .ok st2 →
      (∀ g x, Finding.countMismatch g x ∉ st.log) →
      ∀ g x, Finding.countMismatch g x ∉ st2.log := by
  induction recs with
  | nil =>
    intro e st st2 h hlog
    simp only [process_batch] at h
    cases h
    exact hlog
  | cons upd rest ih =>
    intro e st st2 h hlog
    simp only [process_batch] at h
    cases hu : process_update nodes e st upd with
    | error a => rw [hu] at h; cases h
    | ok s =>
      rw [hu] at h
      exact ih h (process_update_no_count hu hlog)

/-- C5, the claim as stated fails: one edge record, then the two closing
breakpoints, each breakpoint alone in its batch (so the second one is alone in
the final batch).  The loop ends at the first breakpoint with `total_checked`
equal to `2`, not `1 + 2`, writes the count-mismatch diagnostic and leaves the
last batch unread. -/
theorem doubled_breakpoint_count_counterexample :
    validate 2 1 [[insert_rec 0 1], [breakpoint_rec], [breakpoint_rec]] =
        .ok ({ adj_mat := [[true], []], err := true, total_checked := 2,
               log := [Finding.countMismatch 2 1] }, [[breakpoint_rec]]) ∧
      ¬ ∃ st rest,
        validate 2 1 [[insert_rec 0 1], [breakpoint_rec], [breakpoint_rec]] = .ok (st, rest) ∧
          st.total_checked = 1 + 2 ∧ sub64 st.total_checked 2 = 1 ∧
          ∀ g x, Finding.countMismatch g x ∉ st.log := by
  have h : validate 2 1 [[insert_rec 0 1], [breakpoint_rec], [breakpoint_rec]] =
      .ok ({ adj_mat := [[true], []], err := true, total_checked := 2,
             log := [Finding.countMismatch 2 1] }, [[breakpoint_rec]]) := by
    rfl
  refine ⟨h, ?_⟩
  rintro ⟨st, rest, h2, h3, _⟩
  rw [h] at h2
  simp only [Except.ok.injEq, Prod.mk.injEq] at h2
  rw [← h2.1] at h3
  cases h3

/-- C5, amended: `E` records, each of them a breakpoint or with equal endpoints or
with both endpoints below `V`, followed by two breakpoints, split into batches in any
way such that the second breakpoint is alone in the final batch and no earlier
batch is a single breakpoint record.  The pass returns with every batch read,
`total_checked = E + 2`, the terminal check `total_checked - 2 == E` holds and
no count-mismatch diagnostic is written. -/
theorem doubled_breakpoint_count (V E : Nat) (recs : List GraphStreamUpdate)
    (bp1 bp2 : GraphStreamUpdate) (batches : List (List GraphStreamUpdate))
    (hV : V < NODE_MOD) (hE : E + 2 < SIZE_MOD) (hlen : recs.length = E)
    (hrange : ∀ r ∈ recs, r.type ≠ BREAKPOINT → r.edge.src ≠ r.edge.dst → in_range V r)
    (hbp1 : bp1.type = BREAKPOINT) (hbp2 : bp2.type = BREAKPOINT)
    (hsplit : batches.flatten = recs ++ [bp1])
    (hfirst : ∀ b ∈ batches, is_terminal b = false) :
    ∃ st, validate V E (batches ++ [[bp2]]) = .ok (st, []) ∧
      st.total_checked = E + 2 ∧ sub64 st.total_checked 2 = E ∧
      ∀ g x, Finding.countMismatch g x ∉ st.log := by
  have ht : is_terminal [bp2] = true := by simp [is_terminal, hbp2]
  have hr : ∀ r ∈ batches.flatten, r.type ≠ BREAKPOINT → r.edge.src ≠ r.edge.dst →
      in_range V r := by
    intro r hmem hbp
    rw [hsplit] at hmem
    rcases List.mem_append.1 hmem with h | h
    · exact hrange r h hbp
    · rw [List.mem_singleton] at h
      subst h
      exact absurd hbp1 hbp
  obtain ⟨s, hs, hval⟩ := validate_total V E hV batches [bp2] [] hfirst ht hr
  have hcount : (batches.flatten ++ [bp2]).length = E + 2 := by
    rw [hsplit]
    simp [hlen]
  have htc : add64 0 (batches.flatten ++ [bp2]).length = E + 2 := by
    rw [hcount]
    unfold add64
    rw [Nat.zero_add, Nat.mod_eq_of_lt hE]
  have hsub : sub64 (E + 2) 2 = E := by
    unfold sub64 SIZE_MOD at *
    omega
  have hnone := process_batch_no_count hs (by simp [initial_state])
  refine ⟨_, hval, ?_, ?_, ?_⟩
  · rw [htc]
    simp [terminal_check, hsub]
  · rw [htc]
    simp [terminal_check, hsub]
  · rw [htc]
    simpa [terminal_check, hsub] using hnone

/-- Witness of C5, amended: two edge records and the first breakpoint in one
batch, the second breakpoint alone. -/
theorem doubled_breakpoint_count_witness :
    ∃ st, validate 3 2 (sample_batches ++ [[breakpoint_rec]]) = .ok (st, []) ∧
      st.total_checked = 2 + 2 ∧ sub64 st.total_checked 2 = 2 ∧
      ∀ g x, Finding.countMismatch g x ∉ st.log :=
  doubled_breakpoint_count 3 2 [insert_rec 0 1, delete_rec 1 0] breakpoint_rec breakpoint_rec
    sample_batches (by decide) (by decide) rfl
    (by intro r hr _ _; fin_cases hr <;> exact ⟨by decide, by decide, by decide⟩) rfl rfl rfl
    (by decide)

/-- C6, the code at the failing input: a stream that declares `2^64 - 1` updates
and consists of a single breakpoint record.  One record was consumed, the
subtraction `total_checked - 2` wraps to `2^64 - 1`, no count-mismatch
diagnostic is written and the stream is reported valid, although the number of
records is not the declared number plus two. -/
theorem count_check_wraps :
    validate 2 18446744073709551615 [[breakpoint_rec]] =
        .ok ({ adj_mat := [[false], []], err := false, total_checked := 1, log := [] }, []) ∧
      reports_success (validate 2 18446744073709551615 [[breakpoint_rec]]) = true ∧
      sub64 1 2 = 18446744073709551615 ∧
      [[breakpoint_rec]].flatten.length ≠ 18446744073709551615 + 2 := by
  refine ⟨rfl, rfl, rfl, by decide⟩

/-- C7: a record that is not a breakpoint and has equal endpoints is flagged with
the equal-src-dst diagnostic, the error flag is raised, the table (and the
count of records) is left as it was, and the loop goes on with the next record
of the batch. -/
theorem self_loop_flagged (V e : Nat) (st : ValidatorState) (upd : GraphStreamUpdate)
    (rest : List GraphStreamUpdate) (hbp : upd.type ≠ BREAKPOINT)
    (heq : upd.edge.src = upd.edge.dst) :
    ∃ st2, process_update V e st upd = .ok st2 ∧ st2.err = true ∧
      st2.adj_mat = st.adj_mat ∧ st2.total_checked = st.total_checked ∧
      st2.log = st.log ++ [Finding.equalSrcDst (add64 st.total_checked e) upd.edge upd.type] ∧
      process_batch V e st (upd :: rest) = process_batch V (e + 1) st2 rest := by
  refine ⟨_, process_update_self_loop V e st upd hbp heq, rfl, rfl, rfl, rfl, ?_⟩
  simp only [process_batch, process_update_self_loop V e st upd hbp heq]

/-- Witness of C7: the edge `(3,3)` in a five-vertex stream, followed by an insert
of `(0,1)`. -/
theorem self_loop_flagged_witness :
    ∃ st2, process_update 5 0 (initial_state 5) (insert_rec 3 3) = .ok st2 ∧ st2.err = true ∧
      st2.adj_mat = (initial_state 5).adj_mat ∧
      st2.total_checked = (initial_state 5).total_checked ∧
      st2.log = (initial_state 5).log ++
        [Finding.equalSrcDst (add64 (initial_state 5).total_checked 0) (insert_rec 3 3).edge
          (insert_rec 3 3).type] ∧
      process_batch 5 0 (initial_state 5) (insert_rec 3 3 :: [insert_rec 0 1]) =
        process_batch 5 (0 + 1) st2 [insert_rec 0 1] :=
  self_loop_flagged 5 0 (initial_state 5) (insert_rec 3 3) [insert_rec 0 1] (by decide) rfl

theorem read_cell_no_row {V : Nat} (st : ValidatorState) (hs : st.adj_mat.Shaped V)
    (i j : Nat) (hi : V ≤ i) : read_cell st i j = none := by
  have hrow : st.adj_mat[i]? = none := List.getElem?_eq_none (by rw [hs.1]; exact hi)
  simp [read_cell, AdjMat.get?, in_slack, hrow]

theorem process_update_flagged (V e : Nat) (st : ValidatorState) (upd : GraphStreamUpdate)
    (cell : Bool) (hbp : upd.type ≠ BREAKPOINT) (hne : upd.edge.src ≠ upd.edge.dst)
    (hge : upd.edge.src ≥ V ∨ upd.edge.dst ≥ V)
    (hread : read_cell st (canonical upd.edge).1 (canonical upd.edge).2 = some cell) :
    ∃ st2, process_update V e st upd = .ok st2 ∧ st2.err = true ∧
      st2.log.getLast? =
        some (Finding.outOfBounds (add64 st.total_checked e) upd.edge upd.type) := by
  unfold process_update
  simp only [hbp, hne, if_false, hread, hge, if_true]
  exact ⟨_, rfl, rfl, by simp⟩

/-- C8, the code at the failing input: with five vertices and the initial table,
the record `insert (6,9)` makes the loop body index row 6 of a table of five
rows (line 98, `adj_mat[src]` with `src = 6`) before it reaches the range check
of line 106; the access is beyond the end of the outer vector, the body
produces no result and no out-of-bounds diagnostic is written, and a whole pass
over a stream that holds the record ends the same way.  So it is for every
record whose two endpoints are distinct and not below `V`.  For the record
`insert (2,7)` the row exists and column 4 lies in the word of its two cells:
the body goes on to line 106, writes the out-of-bounds diagnostic and raises
the error flag; so it does whenever the read of line 98 stays inside the
storage of the table, whatever bit is read and whatever the type check
says. -/
theorem out_of_range_indexes_table :
    process_update 5 0 (initial_state 5) (insert_rec 6 9) = .error Abort.outOfRange ∧
      canonical (insert_rec 6 9).edge = (6, 2) ∧
      (initial_state 5).adj_mat[6]? = none ∧
      (initial_state 5).adj_mat = [[false, false, false, false], [false, false, false],
        [false, false], [false], []] ∧
      validate 5 1 [[insert_rec 6 9, breakpoint_rec], [breakpoint_rec]] =
        .error Abort.outOfRange ∧
      (∀ V e st upd, V < NODE_MOD → st.adj_mat.Shaped V → upd.type ≠ BREAKPOINT →
        upd.edge.src ≠ upd.edge.dst → V ≤ upd.edge.src → V ≤ upd.edge.dst →
        upd.edge.src < NODE_MOD → upd.edge.dst < NODE_MOD →
        process_update V e st upd = .error Abort.outOfRange) ∧
      process_update 5 0 (initial_state 5) (insert_rec 2 7) =
        .ok { adj_mat := (initial_state 5).adj_mat, err := true, total_checked := 0,
              log := [Finding.outOfBounds 0 { src := 2, dst := 7 } INSERT],
              slack := [(2, 4)] } ∧
      (∀ V e st upd cell, upd.type ≠ BREAKPOINT → upd.edge.src ≠ upd.edge.dst →
        (upd.edge.src ≥ V ∨ upd.edge.dst ≥ V) →
        read_cell st (canonical upd.edge).1 (canonical upd.edge).2 = some cell →
        ∃ st2, process_update V e st upd = .ok st2 ∧ st2.err = true ∧
          st2.log.getLast? =
            some (Finding.outOfBounds (add64 st.total_checked e) upd.edge upd.type)) := by
  refine ⟨rfl, rfl, rfl, rfl, rfl, ?_, rfl, ?_⟩
  · intro V e st upd hV hs hbp hne h1 h2 h3 h4
    have hc := canonical_of_ne upd.edge hne h3 h4
    have hmin : V ≤ min upd.edge.src upd.edge.dst := le_min h1 h2
    unfold process_update
    simp only [hbp, hne, if_false, hc, read_cell_no_row st hs _ _ hmin]
  · intro V e st upd cell hbp hne hge hread
    exact process_update_flagged V e st upd cell hbp hne hge hread

/-- C9: a breakpoint record, whatever its endpoints, leaves the whole state (table,
error flag, diagnostics) as it was; a batch adds its size, breakpoints
included, to `total_checked` (as a `size_t`, so exactly when the sum is
representable); and a batch made of breakpoints only changes nothing else. -/
theorem breakpoint_counted (V : Nat) (st : ValidatorState) :
    (∀ e upd, upd.type = BREAKPOINT → process_update V e st upd = .ok st) ∧
    (∀ buf st2, consume_batch V st buf = .ok st2 →
      st2.total_checked = (st.total_checked + buf.length) % SIZE_MOD ∧
      (st.total_checked + buf.length < SIZE_MOD →
        st2.total_checked = st.total_checked + buf.length)) ∧
    (∀ buf, (∀ r ∈ buf, r.type = BREAKPOINT) →
      consume_batch V st buf =
        .ok { st with total_checked := (st.total_checked + buf.length) % SIZE_MOD }) := by
  refine ⟨fun e upd h => process_update_breakpoint V e st upd h, ?_, ?_⟩
  · intro buf st2 h
    rw [consume_batch_eq] at h
    cases hp : process_batch V 0 st buf with
    | error a => rw [hp] at h; cases h
    | ok s =>
      rw [hp] at h
      simp only [Except.ok.injEq] at h
      subst h
      exact ⟨rfl, fun hlt => Nat.mod_eq_of_lt hlt⟩
  · intro buf hall
    have hp : ∀ (l : List GraphStreamUpdate) (e : Nat), (∀ r ∈ l, r.type = BREAKPOINT) →
        process_batch V e st l = .ok st := by
      intro l
      induction l with
      | nil => intro e _; rfl
      | cons r rs ih =>
        intro e hl
        simp only [process_batch,
          process_update_breakpoint V e st r (hl r (List.mem_cons_self _ _))]
        exact ih (e + 1) (fun x hx => hl x (List.mem_cons_of_mem _ hx))
    rw [consume_batch_eq, hp buf 0 hall]
    rfl

/-- Witness of C9: a breakpoint record with equal, out-of-range endpoints in a
batch of three records. -/
theorem breakpoint_counted_witness :
    process_update 4 1 (initial_state 4) { type := BREAKPOINT, edge := { src := 9, dst := 9 } } =
        .ok (initial_state 4) ∧
      ∀ st2, consume_batch 4 (initial_state 4)
          [insert_rec 0 1, { type := BREAKPOINT, edge := { src := 9, dst := 9 } },
            breakpoint_rec] = .ok st2 →
        st2.total_checked = ((initial_state 4).total_checked + 3) % SIZE_MOD ∧
        ((initial_state 4).total_checked + 3 < SIZE_MOD →
          st2.total_checked = (initial_state 4).total_checked + 3) :=
  ⟨(breakpoint_counted 4 (initial_state 4)).1 1 _ rfl,
    fun st2 h => (breakpoint_counted 4 (initial_state 4)).2.1 _ st2 h⟩

/-! ## The canonical index of an edge -/

theorem mem_triangular (V : Nat) (p : Nat × Nat) :
    p ∈ triangular V ↔ p.1 < V ∧ p.2 < V - p.1 - 1 := by
  simp only [triangular, Finset.mem_filter, Finset.mem_product, Finset.mem_range]
  omega

theorem mem_vertex_pairs (V : Nat) (p : Nat × Nat) :
    p ∈ vertex_pairs V ↔ p.1 < p.2 ∧ p.2 < V := by
  simp only [vertex_pairs, Finset.mem_filter, Finset.mem_product, Finset.mem_range]
  omega

theorem triangular_card (V : Nat) : (triangular V).card = V * (V - 1) / 2 := by
  unfold triangular
  rw [Finset.card_filter, Finset.sum_product]
  have hrow : ∀ i ∈ Finset.range V,
      (∑ j ∈ Finset.range V, if j < V - i - 1 then 1 else 0) = V - 1 - i := by
    intro i _
    rw [← Finset.card_filter]
    have hfil : (Finset.range V).filter (fun j => j < V - i - 1) = Finset.range (V - i - 1) := by
      ext j
      simp only [Finset.mem_filter, Finset.mem_range]
      omega
    rw [hfil, Finset.card_range]
    omega
  rw [Finset.sum_congr rfl hrow, Finset.sum_range_reflect (fun i => i) V, Finset.sum_range_id]

theorem canonical_lt (s d : Nat) (hlt : s < d) (hd : d < NODE_MOD) :
    canonical { src := s, dst := d } = (s, d - s - 1) ∧
      canonical { src := d, dst := s } = (s, d - s - 1) := by
  constructor
  · rw [canonical_of_ne _ (Nat.ne_of_lt hlt) (by simp only; omega) hd]
    simp only [min_eq_left hlt.le, max_eq_right hlt.le]
  · rw [canonical_of_ne _ (Nat.ne_of_gt hlt) hd (by simp only; omega)]
    simp only [min_eq_right hlt.le, max_eq_left hlt.le]

theorem canonical_spec (V : Nat) (hV : V < NODE_MOD) (s d : Nat) (hne : s ≠ d) (hs : s < V)
    (hd : d < V) :
    canonical { src := s, dst := d } = (min s d, max s d - min s d - 1) ∧
      canonical { src := d, dst := s } = canonical { src := s, dst := d } ∧
      canonical { src := s, dst := d } ∈ triangular V ∧
      decode (canonical { src := s, dst := d }) = (min s d, max s d) := by
  rcases Nat.lt_or_gt_of_ne hne with h | h
  · obtain ⟨h1, h2⟩ := canonical_lt s d h (by omega)
    rw [h1, h2, min_eq_left h.le, max_eq_right h.le, mem_triangular]
    refine ⟨rfl, rfl, ⟨hs, by simp only; omega⟩, ?_⟩
    simp only [decode, Prod.mk.injEq, true_and]
    omega
  · obtain ⟨h1, h2⟩ := canonical_lt d s h (by omega)
    rw [h1, h2, min_eq_right h.le, max_eq_left h.le, mem_triangular]
    refine ⟨rfl, rfl, ⟨hd, by simp only; omega⟩, ?_⟩
    simp only [decode, Prod.mk.injEq, true_and]
    omega

theorem decode_spec (V : Nat) (hV : V < NODE_MOD) (p : Nat × Nat) (hp : p ∈ triangular V) :
    (decode p).1 < (decode p).2 ∧ (decode p).2 < V ∧
      canonical { src := (decode p).1, dst := (decode p).2 } = p := by
  obtain ⟨h1, h2⟩ := (mem_triangular V p).1 hp
  have hlt : p.1 < p.1 + p.2 + 1 := by omega
  have hV2 : p.1 + p.2 + 1 < V := by omega
  refine ⟨hlt, hV2, ?_⟩
  simp only [decode]
  rw [(canonical_lt _ _ hlt (by omega)).1]
  ext
  · rfl
  · simp only
    omega

/-- C10: for a vertex count `V`, the canonical mapping sends the two orders of a
pair of distinct vertex ids below `V` to the same index
`(min, max - min - 1)`, which lies in the triangular index space; decoding
`(lo, offset)` as `(lo, lo + offset + 1)` recovers `(min, max)`; every index of
the triangular space is the image of its decoding; two pairs with the same
index are the same unordered pair; the mapping is a bijection from the pairs
written smaller endpoint first onto the triangular space, which has
`V * (V - 1) / 2` elements and is the set of the cells of the table that
lines 66-69 allocate. -/
theorem canonical_bijection (V : Nat) (hV : V < NODE_MOD) :
    (∀ s d, s ≠ d → s < V → d < V →
      canonical { src := s, dst := d } = (min s d, max s d - min s d - 1) ∧
      canonical { src := d, dst := s } = canonical { src := s, dst := d } ∧
      canonical { src := s, dst := d } ∈ triangular V ∧
      decode (canonical { src := s, dst := d }) = (min s d, max s d)) ∧
    (∀ p ∈ triangular V, (decode p).1 < (decode p).2 ∧ (decode p).2 < V ∧
      canonical { src := (decode p).1, dst := (decode p).2 } = p) ∧
    (∀ s d s2 d2, s ≠ d → s < V → d < V → s2 ≠ d2 → s2 < V → d2 < V →
      canonical { src := s, dst := d } = canonical { src := s2, dst := d2 } →
      min s d = min s2 d2 ∧ max s d = max s2 d2) ∧
    Set.BijOn (fun p : Nat × Nat => canonical { src := p.1, dst := p.2 })
      (vertex_pairs V) (triangular V) ∧
    (triangular V).card = V * (V - 1) / 2 ∧
    (∀ i j, ((make_adj_mat V).get? i j).isSome = true ↔ (i, j) ∈ triangular V) := by
  refine ⟨canonical_spec V hV, decode_spec V hV, ?_, ?_, triangular_card V, ?_⟩
  · intro s d s2 d2 hne hs hd hne2 hs2 hd2 heq
    have h1 := (canonical_spec V hV s d hne hs hd).2.2.2
    have h2 := (canonical_spec V hV s2 d2 hne2 hs2 hd2).2.2.2
    rw [heq, h2] at h1
    simp only [Prod.mk.injEq] at h1
    exact ⟨h1.1.symm, h1.2.symm⟩
  · refine ⟨?_, ?_, ?_⟩
    · intro p hp
      obtain ⟨h1, h2⟩ := (mem_vertex_pairs V p).1 (Finset.mem_coe.1 hp)
      exact Finset.mem_coe.2 (canonical_spec V hV p.1 p.2 (Nat.ne_of_lt h1) (by omega) h2).2.2.1
    · intro p hp q hq heq
      obtain ⟨h1, h2⟩ := (mem_vertex_pairs V p).1 (Finset.mem_coe.1 hp)
      obtain ⟨h3, h4⟩ := (mem_vertex_pairs V q).1 (Finset.mem_coe.1 hq)
      simp only at heq
      rw [(canonical_lt p.1 p.2 h1 (by omega)).1, (canonical_lt q.1 q.2 h3 (by omega)).1] at heq
      simp only [Prod.mk.injEq] at heq
      ext
      · exact heq.1
      · omega
    · intro p hp
      obtain ⟨h1, h2, h3⟩ := decode_spec V hV p (Finset.mem_coe.1 hp)
      exact ⟨decode p, Finset.mem_coe.2 ((mem_vertex_pairs V _).2 ⟨h1, h2⟩), h3⟩
  · intro i j
    rw [AdjMat.get?_isSome (AdjMat.shaped_make hV), mem_triangular]

/-- Witness of C10: five vertices, the pair `(4,2)` and its index `(2,1)`. -/
theorem canonical_bijection_witness :
    (canonical { src := 4, dst := 2 } = (min 4 2, max 4 2 - min 4 2 - 1) ∧
      canonical { src := 2, dst := 4 } = canonical { src := 4, dst := 2 } ∧
      canonical { src := 4, dst := 2 } ∈ triangular 5 ∧
      decode (canonical { src := 4, dst := 2 }) = (min 4 2, max 4 2)) ∧
    (triangular 5).card = 5 * (5 - 1) / 2 :=
  ⟨(canonical_bijection 5 (by decide)).1 4 2 (by decide) (by decide) (by decide),
    (canonical_bijection 5 (by decide)).2.2.2.2.1⟩

/-! ## The passes of `main` -/

theorem terminal_check_inv (edges : Nat) (s : ValidatorState)
    (h : s.err = false ↔ s.log = []) :
    (terminal_check edges s).err = false ↔ (terminal_check edges s).log = [] := by
  unfold terminal_check
  split
  · simp
  · exact h

theorem validate_ok_inv {V E : Nat} {batches rest : List (List GraphStreamUpdate)}
    {st : ValidatorState} (h : validate V E batches = .ok (st, rest)) :
    st.err = false ↔ st.log = [] := by
  obtain ⟨pre, t, rfl, ht, hpre⟩ := validate_loop_ok_split V E batches (initial_state V) st rest h
  unfold validate at h
  rw [validate_loop_flat V E t rest ht pre (initial_state V) hpre] at h
  cases hp : process_batch V 0 (initial_state V) (pre.flatten ++ t) with
  | error a => rw [hp] at h; cases h
  | ok s =>
    rw [hp] at h
    simp only [Except.ok.injEq, Prod.mk.injEq] at h
    have hinv : s.err = false ↔ s.log = [] :=
      (process_batch_ok hp).2.2.2 (by simp [initial_state])
    rw [← h.1]
    exact terminal_check_inv E _ hinv

/-- C14: when the validation pass returns with at least one diagnostic written (of
any kind: equal endpoints, type mismatch, out of bounds, count mismatch), the
error flag is up, `main` ends with the failure exit of line 132 and the result
is the same whatever cumulative file is given, or none: the reconciliation pass
does not run, no snapshot record is read and no abort of that pass can occur.
When the validation pass does not return, `main` ends the same way and the
reconciliation pass does not run either. -/
theorem findings_skip_reconciler (V E : Nat) (batches : List (List GraphStreamUpdate)) :
    (∀ st rest, validate V E batches = .ok (st, rest) → st.log ≠ [] →
      st.err = true ∧ ∀ cumul, main V E batches cumul = .ok (Outcome.invalid st)) ∧
    (∀ a, validate V E batches = .error a → ∀ cumul, main V E batches cumul = .error a) := by
  constructor
  · intro st rest h hf
    have herr : st.err = true := by
      cases hb : st.err with
      | true => rfl
      | false => exact absurd ((validate_ok_inv h).1 hb) hf
    refine ⟨herr, ?_⟩
    intro cumul
    unfold main
    rw [h]
    simp [herr]
  · intro a h cumul
    unfold main
    rw [h]

/-- Witness of C14: a stream of five vertices whose record `insert (2,7)` is
flagged out of bounds, against any cumulative file. -/
theorem findings_skip_reconciler_witness :
    ({ adj_mat := [[false, false, false, false], [false, false, false], [false, false],
         [false], []],
       err := true, total_checked := 3,
       log := [Finding.outOfBounds 0 { src := 2, dst := 7 } INSERT],
       slack := [(2, 4)] } : ValidatorState).err = true ∧
      ∀ cumul, main 5 1 [[insert_rec 2 7, breakpoint_rec], [breakpoint_rec]] cumul =
        .ok (Outcome.invalid
          { adj_mat := [[false, false, false, false], [false, false, false], [false, false],
              [false], []],
            err := true, total_checked := 3,
            log := [Finding.outOfBounds 0 { src := 2, dst := 7 } INSERT],
            slack := [(2, 4)] }) :=
  (findings_skip_reconciler 5 1 [[insert_rec 2 7, breakpoint_rec], [breakpoint_rec]]).1
    { adj_mat := [[false, false, false, false], [false, false, false], [false, false],
        [false], []],
      err := true, total_checked := 3,
      log := [Finding.outOfBounds 0 { src := 2, dst := 7 } INSERT],
      slack := [(2, 4)] } [] rfl (by decide)

/-- C15: when the validation pass returns with the error flag down and the vertex
count of the snapshot differs from `V`, `main` ends with the exception of
line 143, whatever edge count and records the snapshot holds: the test
precedes the loop that reads the records and the comparison. -/
theorem vertex_count_mismatch_aborts (V E : Nat) (batches rest : List (List GraphStreamUpdate))
    (st : ValidatorState) (cumul : CumulStream)
    (h : validate V E batches = .ok (st, rest)) (hok : st.err = false)
    (hne : cumul.vertices ≠ V) :
    main V E batches (some cumul) = .error Abort.nodesMismatch ∧
      ∀ n recs, main V E batches
        (some { vertices := cumul.vertices, edges := n, records := recs }) =
          .error Abort.nodesMismatch := by
  have hgen : ∀ c : CumulStream, c.vertices ≠ V →
      main V E batches (some c) = .error Abort.nodesMismatch := by
    intro c hc
    unfold main
    rw [h]
    simp [hok, reconcile, hc]
  exact ⟨hgen cumul hne, fun n recs => hgen _ hne⟩

/-- Witness of C15: the sample stream of four vertices against a snapshot of five
vertices that lists an edge twice. -/
theorem vertex_count_mismatch_aborts_witness :
    main 4 2 sample_stream
        (some { vertices := 5, edges := 2, records := [insert_rec 0 1, insert_rec 1 0] }) =
        .error Abort.nodesMismatch ∧
      ∀ n recs, main 4 2 sample_stream
        (some { vertices := 5, edges := n, records := recs }) = .error Abort.nodesMismatch :=
  vertex_count_mismatch_aborts 4 2 sample_stream []
    { adj_mat := [[true, false, false], [false, false], [true], []], err := false,
      total_checked := 4, log := [] }
    { vertices := 5, edges := 2, records := [insert_rec 0 1, insert_rec 1 0] }
    rfl rfl (by decide)

/-- C18: two splits of one record sequence into batches, each ending with a batch
that is a single breakpoint and with no earlier such batch, give the same
result: the same table, error flag, `total_checked` and diagnostics with the
same indices (or the same abort).  The result is that of the loop body run
once over the concatenated records, from position 0, followed by the terminal
check. -/
theorem batching_independent (V E : Nat) (pre1 pre2 : List (List GraphStreamUpdate))
    (t1 t2 : List GraphStreamUpdate)
    (hflat : (pre1 ++ [t1]).flatten = (pre2 ++ [t2]).flatten)
    (hpre1 : ∀ b ∈ pre1, is_terminal b = false) (ht1 : is_terminal t1 = true)
    (hpre2 : ∀ b ∈ pre2, is_terminal b = false) (ht2 : is_terminal t2 = true) :
    validate V E (pre1 ++ [t1]) = validate V E (pre2 ++ [t2]) ∧
      validate V E (pre1 ++ [t1]) =
        match process_batch V 0 (initial_state V) (pre1 ++ [t1]).flatten with
        | .error a => .error a
        | .ok s => .ok (terminal_check E
            { s with total_checked := add64 0 (pre1 ++ [t1]).flatten.length }, []) := by
  have h1 : (pre1 ++ [t1]).flatten = pre1.flatten ++ t1 := by simp
  have h2 : (pre2 ++ [t2]).flatten = pre2.flatten ++ t2 := by simp
  have e1 := validate_loop_flat V E t1 [] ht1 pre1 (initial_state V) hpre1
  have e2 := validate_loop_flat V E t2 [] ht2 pre2 (initial_state V) hpre2
  rw [h1, h2] at hflat
  rw [h1]
  unfold validate
  refine ⟨?_, e1⟩
  rw [e1, e2, hflat]

/-- Witness of C18: the records `insert (0,1), delete (1,0), breakpoint,
breakpoint` in two batches and in four. -/
theorem batching_independent_witness :
    validate 3 2 (sample_batches ++ [[breakpoint_rec]]) =
        validate 3 2 ([[insert_rec 0 1], [], [delete_rec 1 0, breakpoint_rec]] ++
          [[breakpoint_rec]]) ∧
      validate 3 2 (sample_batches ++ [[breakpoint_rec]]) =
        match process_batch 3 0 (initial_state 3)
            (sample_batches ++ [[breakpoint_rec]]).flatten with
        | .error a => .error a
        | .ok s => .ok (terminal_check 2
            { s with total_checked :=
                add64 0 (sample_batches ++ [[breakpoint_rec]]).flatten.length }, []) :=
  batching_independent 3 2 sample_batches
    [[insert_rec 0 1], [], [delete_rec 1 0, breakpoint_rec]] [breakpoint_rec] [breakpoint_rec]
    rfl (by decide) (by decide) (by decide) (by decide)

/-! ## Bounds of the table accesses -/

/-- C19: for a `node_id_t` vertex count `V` and a record with distinct endpoints
below `V`, the row `lo` computed by lines 96-97 and 156-157 is
`min(src,dst) < V`, the column is `max(src,dst) - lo - 1` as an exact integer
(the unsigned subtraction does not wrap) and lies below `V - lo - 1`, the size
of row `lo`; so on every table of the shape of a `V`-vertex stream the cell
exists, a write keeps the shape, and neither the loop body of the validator
nor that of the reconciler ends in an access outside a vector. -/
theorem canonical_in_bounds (V : Nat) (hV : V < NODE_MOD) (upd : GraphStreamUpdate)
    (hr : in_range V upd) :
    (canonical upd.edge).1 = min upd.edge.src upd.edge.dst ∧
    (canonical upd.edge).1 < V ∧
    ((canonical upd.edge).2 : Int) =
      (max upd.edge.src upd.edge.dst : Int) - (min upd.edge.src upd.edge.dst : Int) - 1 ∧
    (canonical upd.edge).2 < V - (canonical upd.edge).1 - 1 ∧
    ∀ m : AdjMat, m.Shaped V →
      (m.get? (canonical upd.edge).1 (canonical upd.edge).2).isSome = true ∧
      (∀ b, (m.set (canonical upd.edge).1 (canonical upd.edge).2 b).Shaped V) ∧
      (∀ e st, st.adj_mat = m → ∃ st2, process_update V e st upd = .ok st2) ∧
      cumul_insert m upd ≠ .error Abort.outOfRange := by
  obtain ⟨hc, hlo, hoff⟩ := in_range_cell hV hr
  have hlt := min_lt_max_of_ne hr.1
  rw [hc]
  refine ⟨rfl, hlo, ?_, hoff, ?_⟩
  · simp only
    omega
  · intro m hm
    have hsome := (AdjMat.get?_isSome hm _ _).2 ⟨hlo, hoff⟩
    refine ⟨hsome, fun b => AdjMat.shaped_set hm _ _ _, ?_, ?_⟩
    · intro e st hst
      by_cases hbp : upd.type = BREAKPOINT
      · exact ⟨_, process_update_breakpoint V e st upd hbp⟩
      · obtain ⟨cell, _, hstep⟩ :=
          process_update_in_range V e st upd hV (by rw [hst]; exact hm) hbp hr
        exact ⟨_, hstep⟩
    · obtain ⟨cell, hcell⟩ := Option.isSome_iff_exists.1 hsome
      unfold cumul_insert
      simp only [hc, hcell]
      cases cell <;> simp

/-- Witness of C19: the edge `(4,1)` of a five-vertex stream. -/
theorem canonical_in_bounds_witness :
    (canonical (insert_rec 4 1).edge).1 = min 4 1 ∧
    (canonical (insert_rec 4 1).edge).1 < 5 ∧
    ((canonical (insert_rec 4 1).edge).2 : Int) = ((max 4 1 : Nat) : Int) - ((min 4 1 : Nat) : Int) - 1 ∧
    (canonical (insert_rec 4 1).edge).2 < 5 - (canonical (insert_rec 4 1).edge).1 - 1 ∧
    ∀ m : AdjMat, m.Shaped 5 →
      (m.get? (canonical (insert_rec 4 1).edge).1 (canonical (insert_rec 4 1).edge).2).isSome
        = true ∧
      (∀ b, (m.set (canonical (insert_rec 4 1).edge).1
        (canonical (insert_rec 4 1).edge).2 b).Shaped 5) ∧
      (∀ e st, st.adj_mat = m → ∃ st2, process_update 5 e st (insert_rec 4 1) = .ok st2) ∧
      cumul_insert m (insert_rec 4 1) ≠ .error Abort.outOfRange :=
  canonical_in_bounds 5 (by decide) (insert_rec 4 1) ⟨by decide, by decide, by decide⟩

/-! ## The edge index of a diagnostic -/

theorem process_update_log {nodes e : Nat} {st st2 : ValidatorState} {upd : GraphStreamUpdate}
    (h : process_update nodes e st upd = .ok st2) :
    ∃ new, st2.log = st.log ++ new ∧ ∀ f ∈ new, flags f (add64 st.total_checked e) upd := by
  unfold process_update at h
  simp only at h
  split at h
  · cases h
    exact ⟨[], by simp, by simp⟩
  · split at h
    · cases h
      exact ⟨[_], rfl, by simp [flags]⟩
    · split at h
      · cases h
      · rename_i cell hcell
        by_cases hm : boolToNat cell = upd.type
        · simp only [hm, ne_eq, not_true_eq_false, if_false] at h
          split at h
          · cases h
            exact ⟨[Finding.outOfBounds (add64 st.total_checked e) upd.edge upd.type],
              by simp [write_cell_log], by simp [flags]⟩
          · cases h
            exact ⟨[], by simp [write_cell_log], by simp⟩
        · simp only [hm, ne_eq, not_false_eq_true, if_true] at h
          split at h
          · cases h
            refine ⟨[Finding.incorrectType (add64 st.total_checked e) upd.edge upd.type cell,
              Finding.outOfBounds (add64 st.total_checked e) upd.edge upd.type],
              by simp [write_cell_log], ?_⟩
            intro f hf
            simp only [List.mem_cons, List.mem_singleton, List.not_mem_nil, or_false] at hf
            rcases hf with rfl | rfl
            · exact Or.inr (Or.inl ⟨cell, rfl⟩)
            · exact Or.inr (Or.inr rfl)
          · cases h
            refine ⟨[Finding.incorrectType (add64 st.total_checked e) upd.edge upd.type cell],
              by simp [write_cell_log], ?_⟩
            intro f hf
            rw [List.mem_singleton] at hf
            exact Or.inr (Or.inl ⟨cell, hf⟩)

theorem process_batch_log {nodes : Nat} {recs : List GraphStreamUpdate} :
    ∀ {e : Nat} {st st2 : ValidatorState}, process_batch nodes e st recs = .ok st2 →
      ∃ new, st2.log = st.log ++ new ∧
        ∀ f ∈ new, ∃ i r, recs[i]? = some r ∧ flags f (add64 st.total_checked (e + i)) r := by
  induction recs with
  | nil =>
    intro e st st2 h
    simp only [process_batch] at h
    cases h
    exact ⟨[], by simp, by simp⟩
  | cons upd rest ih =>
    intro e st st2 h
    simp only [process_batch] at h
    cases hu : process_update nodes e st upd with
    | error a => rw [hu] at h; cases h
    | ok s =>
      rw [hu] at h
      obtain ⟨new1, hl1, hf1⟩ := process_update_log hu
      obtain ⟨new2, hl2, hf2⟩ := ih h
      have htc := (process_update_ok hu).1
      refine ⟨new1 ++ new2, by rw [hl2, hl1, List.append_assoc], ?_⟩
      intro f hf
      rcases List.mem_append.1 hf with h1 | h2
      · exact ⟨0, upd, by simp, hf1 f h1⟩
      · obtain ⟨i, r, hi, hfl⟩ := hf2 f h2
        refine ⟨i + 1, r, by simpa using hi, ?_⟩
        rw [htc] at hfl
        have : e + (i + 1) = e + 1 + i := by omega
        rw [this]
        exact hfl

theorem validate_loop_skip (V E : Nat) (bs : List (List GraphStreamUpdate)) :
    ∀ (B1 : List (List GraphStreamUpdate)) (st : ValidatorState),
      (∀ b ∈ B1, is_terminal b = false) →
      validate_loop V E st (B1 ++ bs) =
        match run_batches V st B1 with
        | .error a => .error a
        | .ok sb => validate_loop V E sb bs := by
  intro B1
  induction B1 with
  | nil => intro st _; rfl
  | cons b B1 ih =>
    intro st hB
    have hb : is_terminal b = false := hB b (List.mem_cons_self _ _)
    have hrec := fun s => ih s (fun c hc => hB c (List.mem_cons_of_mem _ hc))
    show validate_loop V E st (b :: (B1 ++ bs)) = _
    simp only [validate_loop, run_batches]
    cases hcb : consume_batch V st b with
    | error a => rfl
    | ok s1 =>
      simp only [hb, Bool.false_eq_true, if_false]
      exact hrec s1

theorem run_batches_total (V : Nat) :
    ∀ (B1 : List (List GraphStreamUpdate)) (st sb : ValidatorState),
      st.total_checked < SIZE_MOD → run_batches V st B1 = .ok sb →
      sb.total_checked = add64 st.total_checked B1.flatten.length := by
  intro B1
  induction B1 with
  | nil =>
    intro st sb h0 h
    simp only [run_batches, Except.ok.injEq] at h
    subst h
    simp only [List.flatten_nil, List.length_nil, add64, Nat.add_zero]
    exact (Nat.mod_eq_of_lt h0).symm
  | cons b B1 ih =>
    intro st sb _ h
    simp only [run_batches] at h
    rw [consume_batch_eq] at h
    cases hp : process_batch V 0 st b with
    | error a => rw [hp] at h; cases h
    | ok s =>
      rw [hp] at h
      simp only at h
      rw [ih _ sb (Nat.mod_lt _ (by decide)) h]
      simp only [List.flatten_cons, List.length_append, add64_add64]

theorem validate_loop_log (V E : Nat) :
    ∀ (bs : List (List GraphStreamUpdate)) (st0 st : ValidatorState)
      (rest : List (List GraphStreamUpdate)),
      validate_loop V E st0 bs = .ok (st, rest) → ∃ tail, st.log = st0.log ++ tail := by
  intro bs
  induction bs with
  | nil => intro st0 st rest h; simp [validate_loop] at h
  | cons b bs ih =>
    intro st0 st rest h
    simp only [validate_loop] at h
    rw [consume_batch_eq] at h
    cases hp : process_batch V 0 st0 b with
    | error a => rw [hp] at h; cases h
    | ok s =>
      rw [hp] at h
      simp only at h
      obtain ⟨new, hnew, _⟩ := process_batch_log hp
      by_cases hb : is_terminal b = true
      · simp only [hb, if_true, Except.ok.injEq, Prod.mk.injEq] at h
        rw [← h.1]
        unfold terminal_check
        split
        · refine ⟨new ++ [Finding.countMismatch (add64 st0.total_checked b.length) E], ?_⟩
          simp [hnew]
        · exact ⟨new, hnew⟩
      · have hb2 : is_terminal b = false := by simpa using hb
        simp only [hb2, Bool.false_eq_true, if_false] at h
        obtain ⟨tail, htail⟩ := ih _ st rest h
        exact ⟨new ++ tail, by rw [htail]; simp [hnew]⟩

theorem validate_loop_step (V E : Nat) (sb st : ValidatorState)
    (buf : List GraphStreamUpdate) (B2 rest : List (List GraphStreamUpdate))
    (h : validate_loop V E sb (buf :: B2) = .ok (st, rest)) :
    ∃ s, process_batch V 0 sb buf = .ok s ∧ ∃ tail, st.log = s.log ++ tail := by
  simp only [validate_loop] at h
  rw [consume_batch_eq] at h
  cases hp : process_batch V 0 sb buf with
  | error a => rw [hp] at h; cases h
  | ok s =>
    rw [hp] at h
    simp only at h
    refine ⟨s, rfl, ?_⟩
    by_cases hb : is_terminal buf = true
    · simp only [hb, if_true, Except.ok.injEq, Prod.mk.injEq] at h
      rw [← h.1]
      unfold terminal_check
      split
      · exact ⟨[Finding.countMismatch (add64 sb.total_checked buf.length) E], rfl⟩
      · exact ⟨[], by simp⟩
    · have hb2 : is_terminal buf = false := by simpa using hb
      simp only [hb2, Bool.false_eq_true, if_false] at h
      exact validate_loop_log V E B2
        { s with total_checked := add64 sb.total_checked buf.length } st rest h

theorem process_batch_split (V : Nat) (xs : List GraphStreamUpdate) (r : GraphStreamUpdate)
    (ys : List GraphStreamUpdate) (sb s : ValidatorState)
    (h : process_batch V 0 sb (xs ++ r :: ys) = .ok s) :
    ∃ s1 s2 new, process_batch V 0 sb xs = .ok s1 ∧ s1.total_checked = sb.total_checked ∧
      process_update V xs.length s1 r = .ok s2 ∧ s2.log = s1.log ++ new ∧
      (∀ f ∈ new, flags f (add64 sb.total_checked xs.length) r) ∧
      ∃ tail, s.log = s2.log ++ tail := by
  rw [process_batch_append] at h
  cases h1 : process_batch V 0 sb xs with
  | error a => rw [h1] at h; cases h
  | ok s1 =>
    rw [h1] at h
    simp only [Nat.zero_add, process_batch] at h
    cases h2 : process_update V xs.length s1 r with
    | error a => rw [h2] at h; cases h
    | ok s2 =>
      rw [h2] at h
      simp only at h
      have htc := (process_batch_ok h1).1
      obtain ⟨new, hnew, hflags⟩ := process_update_log h2
      obtain ⟨tail, htail, _⟩ := process_batch_log h
      rw [htc] at hflags
      exact ⟨s1, s2, new, rfl, htc, h2, hnew, hflags, tail, htail⟩

/-- C20: the diagnostics written while a record is processed carry, as their edge
index, `total_checked` plus the offset `e` of the record in its batch.  In a
pass that returns, for every batch `buf` that is read after batches `B1` and
every record `r` of `buf` at offset `xs.length`, the batch is entered with
`total_checked` equal to the number of records of `B1`, and the diagnostics
written for `r` (the entries that processing `r` adds to the log, all of which
remain in the final log) carry that number plus the offset: the position of
`r`, counted from 0, in the concatenation of the batches consumed so far,
breakpoints and flagged records counted (as a `size_t`).  Every entry of the
final log other than the count mismatch is such a diagnostic. -/
theorem finding_index (V E : Nat) :
    (∀ e st upd st2, process_update V e st upd = .ok st2 →
      ∃ new, st2.log = st.log ++ new ∧
        ∀ f ∈ new, flags f (add64 st.total_checked e) upd) ∧
    (∀ st buf st2, consume_batch V st buf = .ok st2 →
      ∃ new, st2.log = st.log ++ new ∧
        ∀ f ∈ new, ∃ i r, buf[i]? = some r ∧ flags f (add64 st.total_checked i) r) ∧
    (∀ B1 buf B2 st rest, (∀ b ∈ B1, is_terminal b = false) →
      validate V E (B1 ++ buf :: B2) = .ok (st, rest) →
      ∃ sb, run_batches V (initial_state V) B1 = .ok sb ∧
        sb.total_checked = B1.flatten.length % SIZE_MOD ∧
        ∀ xs r ys, buf = xs ++ r :: ys →
          ∃ s1 s2 new, process_batch V 0 sb xs = .ok s1 ∧
            s1.total_checked = sb.total_checked ∧
            process_update V xs.length s1 r = .ok s2 ∧ s2.log = s1.log ++ new ∧
            ∀ f ∈ new, flags f (add64 sb.total_checked xs.length) r ∧
              flags f ((B1.flatten.length + xs.length) % SIZE_MOD) r ∧
              (B1.flatten.length + xs.length < SIZE_MOD →
                flags f (B1.flatten.length + xs.length) r) ∧
              f ∈ st.log) ∧
    (∀ pre t post st rest, (∀ b ∈ pre, is_terminal b = false) → is_terminal t = true →
      validate V E (pre ++ t :: post) = .ok (st, rest) →
      ∀ f ∈ st.log,
        f = Finding.countMismatch ((pre ++ [t]).flatten.length % SIZE_MOD) E ∨
        ∃ i r, (pre ++ [t]).flatten[i]? = some r ∧ flags f (i % SIZE_MOD) r ∧
          (i < SIZE_MOD → flags f i r)) := by
  refine ⟨fun e st upd st2 h => process_update_log h, ?_, ?_, ?_⟩
  · intro st buf st2 h
    rw [consume_batch_eq] at h
    cases hp : process_batch V 0 st buf with
    | error a => rw [hp] at h; cases h
    | ok s =>
      rw [hp] at h
      simp only [Except.ok.injEq] at h
      subst h
      obtain ⟨new, hl, hf⟩ := process_batch_log hp
      refine ⟨new, hl, ?_⟩
      intro f hmem
      obtain ⟨i, r, hi, hfl⟩ := hf f hmem
      rw [Nat.zero_add] at hfl
      exact ⟨i, r, hi, hfl⟩
  · intro B1 buf B2 st rest hB1 h
    unfold validate at h
    rw [validate_loop_skip V E (buf :: B2) B1 (initial_state V) hB1] at h
    cases hrun : run_batches V (initial_state V) B1 with
    | error a => rw [hrun] at h; cases h
    | ok sb =>
      rw [hrun] at h
      simp only at h
      have htot : sb.total_checked = B1.flatten.length % SIZE_MOD := by
        have h0 : (initial_state V).total_checked < SIZE_MOD := by
          show 0 < SIZE_MOD
          decide
        rw [run_batches_total V B1 (initial_state V) sb h0 hrun]
        simp [add64, initial_state]
      refine ⟨sb, rfl, htot, ?_⟩
      intro xs r ys hbuf
      obtain ⟨s, hs, tail, htail⟩ := validate_loop_step V E sb st buf B2 rest h
      rw [hbuf] at hs
      obtain ⟨s1, s2, new, h1, h2, h3, h4, h5, tail2, htail2⟩ :=
        process_batch_split V xs r ys sb s hs
      refine ⟨s1, s2, new, h1, h2, h3, h4, ?_⟩
      intro f hf
      have hflag := h5 f hf
      have hidx : add64 sb.total_checked xs.length =
          (B1.flatten.length + xs.length) % SIZE_MOD := by
        rw [htot]
        unfold add64
        exact Nat.mod_add_mod _ _ _
      refine ⟨hflag, ?_, ?_, ?_⟩
      · rw [← hidx]; exact hflag
      · intro hlt
        rw [hidx, Nat.mod_eq_of_lt hlt] at hflag
        exact hflag
      · rw [htail, htail2, h4]
        simp [hf]
  · intro pre t post st rest hpre ht h f hmem
    have hflat : (pre ++ [t]).flatten = pre.flatten ++ t := by simp
    rw [hflat]
    unfold validate at h
    rw [validate_loop_flat V E t post ht pre (initial_state V) hpre] at h
    cases hp : process_batch V 0 (initial_state V) (pre.flatten ++ t) with
    | error a => rw [hp] at h; cases h
    | ok s =>
      rw [hp] at h
      simp only [Except.ok.injEq, Prod.mk.injEq] at h
      obtain ⟨new, hl, hf⟩ := process_batch_log hp
      have hrec : ∀ g ∈ s.log, ∃ i r, (pre.flatten ++ t)[i]? = some r ∧
          flags g (i % SIZE_MOD) r ∧ (i < SIZE_MOD → flags g i r) := by
        intro g hg
        rw [hl] at hg
        simp only [initial_state, List.nil_append] at hg
        obtain ⟨i, r, hi, hfl⟩ := hf g hg
        have hidx : add64 (initial_state V).total_checked (0 + i) = i % SIZE_MOD := by
          simp [add64, initial_state]
        rw [hidx] at hfl
        refine ⟨i, r, hi, hfl, fun hlt => ?_⟩
        rw [Nat.mod_eq_of_lt hlt] at hfl
        exact hfl
      rw [← h.1] at hmem
      unfold terminal_check at hmem
      split at hmem
      · simp only [List.mem_append, List.mem_singleton] at hmem
        rcases hmem with h1 | h1
        · exact Or.inr (hrec f h1)
        · left
          rw [h1]
          simp [add64, initial_state]
      · exact Or.inr (hrec f hmem)

/-- Witness of C20: a stream of five vertices whose second batch holds a self-loop
at offset 0 and the record `insert (2,7)` at offset 1; the first batch has two
records, so the out-of-bounds diagnostic carries the index 3. -/
theorem finding_index_witness :
    (∃ sb, run_batches 5 (initial_state 5) [[insert_rec 0 1, breakpoint_rec]] = .ok sb ∧
        sb.total_checked = [[insert_rec 0 1, breakpoint_rec]].flatten.length % SIZE_MOD ∧
        ∀ xs r ys, [insert_rec 1 1, insert_rec 2 7, breakpoint_rec] = xs ++ r :: ys →
          ∃ s1 s2 new, process_batch 5 0 sb xs = .ok s1 ∧
            s1.total_checked = sb.total_checked ∧
            process_update 5 xs.length s1 r = .ok s2 ∧ s2.log = s1.log ++ new ∧
            ∀ f ∈ new, flags f (add64 sb.total_checked xs.length) r ∧
              flags f (([[insert_rec 0 1, breakpoint_rec]].flatten.length + xs.length)
                % SIZE_MOD) r ∧
              ([[insert_rec 0 1, breakpoint_rec]].flatten.length + xs.length < SIZE_MOD →
                flags f ([[insert_rec 0 1, breakpoint_rec]].flatten.length + xs.length) r) ∧
              f ∈ ({ adj_mat := [[true, false, false, false], [false, false, false],
                       [false, false], [false], []],
                     err := true, total_checked := 6,
                     log := [Finding.equalSrcDst 2 { src := 1, dst := 1 } INSERT,
                       Finding.outOfBounds 3 { src := 2, dst := 7 } INSERT],
                     slack := [(2, 4)] } : ValidatorState).log) ∧
      validate 5 4 ([[insert_rec 0 1, breakpoint_rec]] ++
          [insert_rec 1 1, insert_rec 2 7, breakpoint_rec] :: [[breakpoint_rec]]) =
        .ok ({ adj_mat := [[true, false, false, false], [false, false, false],
                 [false, false], [false], []],
               err := true, total_checked := 6,
               log := [Finding.equalSrcDst 2 { src := 1, dst := 1 } INSERT,
                 Finding.outOfBounds 3 { src := 2, dst := 7 } INSERT],
               slack := [(2, 4)] }, []) :=
  ⟨(finding_index 5 4).2.2.1 [[insert_rec 0 1, breakpoint_rec]]
      [insert_rec 1 1, insert_rec 2 7, breakpoint_rec] [[breakpoint_rec]] _ [] (by decide) rfl,
    rfl⟩

/-! ## Repeating one update -/

theorem list_set_self {α : Type} (l : List α) (i : Nat) (a : α) (h : l[i]? = some a) :
    l.set i a = l := by
  induction l generalizing i with
  | nil => rfl
  | cons x xs ih =>
    cases i with
    | zero =>
      simp only [List.getElem?_cons_zero, Option.some.injEq] at h
      simp [h]
    | succ k =>
      simp only [List.getElem?_cons_succ] at h
      simp [ih k h]

theorem AdjMat.set_set_self (m : AdjMat) (i j : Nat) (b c : Bool)
    (h : m.get? i j = some c) : (m.set i j b).set i j c = m := by
  unfold AdjMat.get? at h
  cases hrow : m[i]? with
  | none => rw [hrow] at h; cases h
  | some row =>
    rw [hrow] at h
    simp only at h
    have hi : i < m.length := by
      by_contra hcon
      rw [List.getElem?_eq_none (by omega)] at hrow
      cases hrow
    have h1 : AdjMat.set m i j b = List.set m i (List.set row j b) := by
      unfold AdjMat.set
      rw [hrow]
    rw [h1]
    unfold AdjMat.set
    rw [List.getElem?_set_self hi]
    simp only
    rw [List.set_set, List.set_set, list_set_self row j c h, list_set_self m i row hrow]

theorem process_update_twice (V e e2 : Nat) (st : ValidatorState) (upd : GraphStreamUpdate)
    (hV : V < NODE_MOD) (hs : st.adj_mat.Shaped V) (hbp : upd.type ≠ BREAKPOINT)
    (hr : in_range V upd) :
    ∃ s1 s2, process_update V e st upd = .ok s1 ∧ process_update V e2 s1 upd = .ok s2 ∧
      s2.adj_mat = st.adj_mat := by
  obtain ⟨cell, hcell, hstep⟩ := process_update_in_range V e st upd hV hs hbp hr
  have hs1 := AdjMat.shaped_set hs (min upd.edge.src upd.edge.dst)
    (max upd.edge.src upd.edge.dst - min upd.edge.src upd.edge.dst - 1) (!cell)
  obtain ⟨cell2, hcell2, hstep2⟩ := process_update_in_range V e2 _ upd hV
    ((process_update_ok hstep).2.2.1 V hs) hbp hr
  refine ⟨_, _, hstep, hstep2, ?_⟩
  simp only [AdjMat.get?_set, hcell, and_self, if_true, Option.map_some',
    Option.some.injEq] at hcell2
  simp only
  rw [← hcell2, Bool.not_not]
  exact AdjMat.set_set_self _ _ _ _ _ hcell

theorem process_batch_even (V : Nat) (upd : GraphStreamUpdate) (hV : V < NODE_MOD)
    (hbp : upd.type ≠ BREAKPOINT) (hr : in_range V upd) (n : Nat) :
    ∀ (e : Nat) (st : ValidatorState), st.adj_mat.Shaped V →
      ∃ s, process_batch V e st (List.replicate (2 * n) upd) = .ok s ∧
        s.adj_mat = st.adj_mat := by
  induction n with
  | zero => intro e st _; exact ⟨st, rfl, rfl⟩
  | succ k ih =>
    intro e st hs
    obtain ⟨s1, s2, h1, h2, h3⟩ := process_update_twice V e (e + 1) st upd hV hs hbp hr
    have hrep : List.replicate (2 * (k + 1)) upd = upd :: upd :: List.replicate (2 * k) upd := by
      rw [show 2 * (k + 1) = 2 * k + 1 + 1 by omega, List.replicate_succ, List.replicate_succ]
    obtain ⟨s, hs3, hs4⟩ := ih (e + 1 + 1) s2 (by rw [h3]; exact hs)
    refine ⟨s, ?_, hs4.trans h3⟩
    rw [hrep]
    simp only [process_batch, h1, h2]
    exact hs3

/-- C16, the claim as stated fails for the kind Breakpoint: one application of a
breakpoint record that carries the valid edge `(0,1)` leaves the cell of the
edge as it was instead of negating it. -/
theorem toggle_parity_counterexample :
    in_range 2 { type := BREAKPOINT, edge := { src := 0, dst := 1 } } ∧
      (initial_state 2).adj_mat.get? 0 0 = some false ∧
      ∃ s, process_batch 2 0 (initial_state 2)
          (List.replicate (2 * 0 + 1) { type := BREAKPOINT, edge := { src := 0, dst := 1 } }) =
          .ok s ∧
        s.adj_mat.get? 0 0 ≠ some (!false) := by
  refine ⟨⟨by decide, by decide, by decide⟩, rfl, initial_state 2, rfl, by decide⟩

/-- C16, amended: for an edge with distinct endpoints below `V`, every kind other
than Breakpoint, every table of the shape of a `V`-vertex stream and every
`n`, applying the same update `2n` times in a row gives back the table it
started from, cell of the edge included, and applying it `2n + 1` times gives
the table in which the cell of the edge is negated and nothing else is
changed. -/
theorem toggle_parity (V e : Nat) (st : ValidatorState) (upd : GraphStreamUpdate) (n : Nat)
    (hV : V < NODE_MOD) (hs : st.adj_mat.Shaped V) (hbp : upd.type ≠ BREAKPOINT)
    (hr : in_range V upd) :
    ∃ cell s1 s2,
      st.adj_mat.get? (min upd.edge.src upd.edge.dst)
          (max upd.edge.src upd.edge.dst - min upd.edge.src upd.edge.dst - 1) = some cell ∧
      process_batch V e st (List.replicate (2 * n) upd) = .ok s1 ∧
      s1.adj_mat = st.adj_mat ∧
      process_batch V e st (List.replicate (2 * n + 1) upd) = .ok s2 ∧
      s2.adj_mat.get? (min upd.edge.src upd.edge.dst)
          (max upd.edge.src upd.edge.dst - min upd.edge.src upd.edge.dst - 1) = some (!cell) ∧
      s2.adj_mat = st.adj_mat.set (min upd.edge.src upd.edge.dst)
          (max upd.edge.src upd.edge.dst - min upd.edge.src upd.edge.dst - 1) (!cell) := by
  obtain ⟨cell, hcell, hstep⟩ := process_update_in_range V e st upd hV hs hbp hr
  obtain ⟨s1, h1, h2⟩ := process_batch_even V upd hV hbp hr n e st hs
  obtain ⟨s2, h3, h4⟩ := process_batch_even V upd hV hbp hr n (e + 1) _
    ((process_update_ok hstep).2.2.1 V hs)
  refine ⟨cell, s1, s2, hcell, h1, h2, ?_, ?_, h4⟩
  · rw [List.replicate_succ]
    simp only [process_batch, hstep]
    exact h3
  · rw [h4]
    simp [AdjMat.get?_set, hcell]

/-- Witness of C16, amended: a delete of the edge `(3,1)` of a four-vertex stream,
applied four and five times to the initial table. -/
theorem toggle_parity_witness :
    ∃ cell s1 s2,
      (initial_state 4).adj_mat.get? (min 3 1) (max 3 1 - min 3 1 - 1) = some cell ∧
      process_batch 4 0 (initial_state 4) (List.replicate (2 * 2) (delete_rec 3 1)) = .ok s1 ∧
      s1.adj_mat = (initial_state 4).adj_mat ∧
      process_batch 4 0 (initial_state 4) (List.replicate (2 * 2 + 1) (delete_rec 3 1)) =
        .ok s2 ∧
      s2.adj_mat.get? (min 3 1) (max 3 1 - min 3 1 - 1) = some (!cell) ∧
      s2.adj_mat = (initial_state 4).adj_mat.set (min 3 1) (max 3 1 - min 3 1 - 1) (!cell) :=
  toggle_parity 4 0 (initial_state 4) (delete_rec 3 1) 2 (by decide)
    (AdjMat.shaped_make (by decide)) (by decide) ⟨by decide, by decide, by decide⟩

/-! ## The parity of the records of an edge -/

theorem on_edge_self_loop (a b : Nat) (hab : a < b) (r : GraphStreamUpdate)
    (heq : r.edge.src = r.edge.dst) : on_edge a b r = false := by
  cases h : on_edge a b r with
  | false => rfl
  | true =>
    obtain ⟨_, h1, h2⟩ := (on_edge_iff a b r).1 h
    rw [heq, min_self] at h1
    rw [heq, max_self] at h2
    omega

theorem xor_parity_succ (p : Bool) (k : Nat) :
    xor (!p) (decide (k % 2 = 1)) = xor p (decide ((k + 1) % 2 = 1)) := by
  rcases Nat.mod_two_eq_zero_or_one k with h | h
  · have h2 : (k + 1) % 2 = 1 := by omega
    cases p <;> simp [h, h2]
  · have h2 : (k + 1) % 2 = 0 := by omega
    cases p <;> simp [h, h2]

theorem process_batch_parity (V : Nat) (hV : V < NODE_MOD) (recs : List GraphStreamUpdate) :
    ∀ (e : Nat) (st : ValidatorState), st.adj_mat.Shaped V →
      (∀ r ∈ recs, r.type ≠ BREAKPOINT → r.edge.src ≠ r.edge.dst → in_range V r) →
      ∃ st2, process_batch V e st recs = .ok st2 ∧ st2.adj_mat.Shaped V ∧
        ∀ a b, a < b → st2.adj_mat.present a b =
          xor (st.adj_mat.present a b) (decide ((kinds_on a b recs).length % 2 = 1)) := by
  induction recs with
  | nil =>
    intro e st hs _
    exact ⟨st, rfl, hs, fun a b _ => by simp [kinds_on]⟩
  | cons r rs ih =>
    intro e st hs hr
    have hrs : ∀ x ∈ rs, x.type ≠ BREAKPOINT → x.edge.src ≠ x.edge.dst → in_range V x :=
      fun x hx => hr x (List.mem_cons_of_mem _ hx)
    by_cases hbp : r.type = BREAKPOINT
    · obtain ⟨st2, h1, h2, h3⟩ := ih (e + 1) st hs hrs
      refine ⟨st2, by simp only [process_batch, process_update_breakpoint V e st r hbp, h1],
        h2, ?_⟩
      intro a b hab
      rw [kinds_on_cons_of_not_on a b r rs (on_edge_breakpoint a b r hbp)]
      exact h3 a b hab
    · by_cases heq : r.edge.src = r.edge.dst
      · have hstep := process_update_self_loop V e st r hbp heq
        obtain ⟨st2, h1, h2, h3⟩ := ih (e + 1) _ ((process_update_ok hstep).2.2.1 V hs) hrs
        refine ⟨st2, by simp only [process_batch, hstep, h1], h2, ?_⟩
        intro a b hab
        rw [kinds_on_cons_of_not_on a b r rs (on_edge_self_loop a b hab r heq)]
        exact h3 a b hab
      · have hin := hr r (List.mem_cons_self _ _) hbp heq
        obtain ⟨cell, hcell, hstep⟩ := process_update_in_range V e st r hV hs hbp hin
        obtain ⟨st2, h1, h2, h3⟩ := ih (e + 1) _ ((process_update_ok hstep).2.2.1 V hs) hrs
        refine ⟨st2, by simp only [process_batch, hstep, h1], h2, ?_⟩
        intro a b hab
        rw [h3 a b hab]
        by_cases hon : on_edge a b r = true
        · obtain ⟨_, ha, hb⟩ := (on_edge_iff _ _ _).1 hon
          subst ha; subst hb
          rw [kinds_on_cons_of_on _ _ r rs hon, List.length_cons]
          have hp1 : st.adj_mat.present (min r.edge.src r.edge.dst)
              (max r.edge.src r.edge.dst) = cell := by
            simp [AdjMat.present, hcell]
          have hp2 : (st.adj_mat.set (min r.edge.src r.edge.dst)
              (max r.edge.src r.edge.dst - min r.edge.src r.edge.dst - 1) (!cell)).present
              (min r.edge.src r.edge.dst) (max r.edge.src r.edge.dst) = !cell := by
            simp [AdjMat.present, AdjMat.get?_set, hcell]
          simp only [hp1, hp2]
          exact xor_parity_succ cell _
        · have hon3 : on_edge a b r = false := by simpa using hon
          rw [kinds_on_cons_of_not_on _ _ r rs hon3]
          have hne : ¬ (min r.edge.src r.edge.dst = a ∧
              max r.edge.src r.edge.dst - min r.edge.src r.edge.dst - 1 = b - a - 1) := by
            rintro ⟨h4, h5⟩
            apply hon
            have hlt := min_lt_max_of_ne hin.1
            exact (on_edge_iff _ _ _).2 ⟨hbp, h4, by omega⟩
          simp [AdjMat.present, AdjMat.get?_set, hne]

theorem kinds_on_length (a b : Nat) (recs : List GraphStreamUpdate) :
    (kinds_on a b recs).length = List.countP (on_edge a b) recs := by
  simp [kinds_on, List.countP_eq_length_filter]

/-- C17: when every consumed record that is not a breakpoint and has distinct
endpoints has both endpoints below `V`, the pass returns at the terminal batch
and, for every pair `a < b < V`, the cell at row `a`, column `b - a - 1` of
the final table is `true` if and only if the number of consumed records that
are not breakpoints and whose unordered edge is `a, b` is odd, whatever the
kinds of the records and the diagnostics written. -/
theorem final_table_parity (V E : Nat) (pre : List (List GraphStreamUpdate))
    (t : List GraphStreamUpdate) (post : List (List GraphStreamUpdate))
    (hV : V < NODE_MOD) (hpre : ∀ b ∈ pre, is_terminal b = false)
    (ht : is_terminal t = true)
    (hr : ∀ r ∈ (pre ++ [t]).flatten, r.type ≠ BREAKPOINT → r.edge.src ≠ r.edge.dst →
      in_range V r) :
    ∃ st, validate V E (pre ++ t :: post) = .ok (st, post) ∧
      ∀ a b, a < b → b < V →
        ∃ c, st.adj_mat.get? a (b - a - 1) = some c ∧
          (c = true ↔ Odd (List.countP (on_edge a b) (pre ++ [t]).flatten)) := by
  have hflat : (pre ++ [t]).flatten = pre.flatten ++ t := by simp
  rw [hflat] at hr ⊢
  obtain ⟨s, hs, hshape, hpar⟩ := process_batch_parity V hV (pre.flatten ++ t) 0
    (initial_state V) (AdjMat.shaped_make hV) hr
  refine ⟨terminal_check E
    { s with total_checked :=
        add64 (initial_state V).total_checked (pre.flatten ++ t).length }, ?_, ?_⟩
  · unfold validate
    rw [validate_loop_flat V E t post ht pre (initial_state V) hpre, hs]
  · intro a b hab hb
    have hadj : (terminal_check E
        { s with total_checked :=
            add64 (initial_state V).total_checked (pre.flatten ++ t).length }).adj_mat =
        s.adj_mat := by
      unfold terminal_check
      split <;> rfl
    rw [hadj]
    have hsome := (AdjMat.get?_isSome hshape a (b - a - 1)).2 ⟨by omega, by omega⟩
    obtain ⟨c, hc⟩ := Option.isSome_iff_exists.1 hsome
    refine ⟨c, hc, ?_⟩
    have h1 := hpar a b hab
    simp only [AdjMat.present, hc, Option.getD_some, initial_state] at h1
    have h2 : ((make_adj_mat V).get? a (b - a - 1)).getD false = false :=
      make_adj_mat_present V a b
    rw [h2, kinds_on_length] at h1
    rw [h1, Nat.odd_iff]
    simp

/-- Witness of C17: the sample stream of four vertices. -/
theorem final_table_parity_witness :
    ∃ st, validate 4 2 ([[insert_rec 0 1, insert_rec 2 3, breakpoint_rec]] ++
        [breakpoint_rec] :: []) = .ok (st, []) ∧
      ∀ a b, a < b → b < 4 →
        ∃ c, st.adj_mat.get? a (b - a - 1) = some c ∧
          (c = true ↔ Odd (List.countP (on_edge a b)
            ([[insert_rec 0 1, insert_rec 2 3, breakpoint_rec]] ++
              [[breakpoint_rec]]).flatten)) :=
  final_table_parity 4 2 [[insert_rec 0 1, insert_rec 2 3, breakpoint_rec]] [breakpoint_rec] []
    (by decide) (by decide) (by decide)
    (by
      intro r hr hbp _
      simp only [List.flatten, List.cons_append, List.nil_append, List.append_nil,
        List.mem_cons, List.mem_singleton, List.not_mem_nil, or_false] at hr
      rcases hr with rfl | rfl | rfl | rfl
      · exact ⟨by decide, by decide, by decide⟩
      · exact ⟨by decide, by decide, by decide⟩
      · exact absurd rfl hbp
      · exact absurd rfl hbp)

/-! ## The comparison of the two tables -/

theorem visited_nil (adj cumul : AdjMat) (cs : CompareState) : visited adj cumul cs [] = cs := by
  simp [visited]

theorem visited_append (adj cumul : AdjMat) (cs : CompareState) (l1 l2 : List (Nat × Nat)) :
    visited adj cumul (visited adj cumul cs l1) l2 = visited adj cumul cs (l1 ++ l2) := by
  simp [visited, Bool.or_assoc]

theorem compare_cell_eq (adj cumul : AdjMat) (s d : Nat) (cs : CompareState)
    (h1 : (adj.get? s d).isSome = true) (h2 : (cumul.get? s d).isSome = true) :
    compare_cell adj cumul s d cs = .ok (visited adj cumul cs [(s, d)]) := by
  obtain ⟨a, ha⟩ := Option.isSome_iff_exists.1 h1
  obtain ⟨c, hc⟩ := Option.isSome_iff_exists.1 h2
  unfold compare_cell
  simp only [ha, hc]
  by_cases hac : a = c
  · subst hac
    simp [visited, differ, ha, hc]
  · have hne : (a != c) = true := by simpa using hac
    simp [visited, differ, ha, hc, hac, hne]

theorem compare_row_eq (adj cumul : AdjMat) (s : Nat) (n : Nat) :
    ∀ (d : Nat) (cs : CompareState),
      (∀ k, d ≤ k → k < d + n →
        (adj.get? s k).isSome = true ∧ (cumul.get? s k).isSome = true) →
      compare_row adj cumul s n d cs =
        .ok (visited adj cumul cs ((List.range' d n).map (fun k => (s, k)))) := by
  induction n with
  | zero =>
    intro d cs _
    simp [compare_row, visited_nil]
  | succ m ih =>
    intro d cs h
    obtain ⟨h1, h2⟩ := h d (Nat.le_refl d) (by omega)
    simp only [compare_row, compare_cell_eq adj cumul s d cs h1 h2]
    rw [ih (d + 1) _ (fun k hk1 hk2 => h k (by omega) (by omega)), visited_append,
      List.range'_succ]
    rfl

theorem shaped_row {V : Nat} {m : AdjMat} (h : m.Shaped V) (s : Nat) (hs : s < V) :
    ∃ row, m[s]? = some row ∧ row.length = V - s - 1 := by
  have hlt : s < m.length := by rw [h.1]; exact hs
  exact ⟨m[s], List.getElem?_eq_getElem hlt, h.2 s _ (List.getElem?_eq_getElem hlt)⟩

theorem compare_rows_eq (V : Nat) (adj cumul : AdjMat) (h1 : adj.Shaped V)
    (h2 : cumul.Shaped V) (n : Nat) :
    ∀ (s : Nat) (cs : CompareState), s + n ≤ V →
      compare_rows adj cumul n s cs =
        .ok (visited adj cumul cs ((List.range' s n).flatMap
          (fun r => (List.range' 0 (V - r - 1)).map (fun d => (r, d))))) := by
  induction n with
  | zero =>
    intro s cs _
    simp [compare_rows, visited_nil]
  | succ m ih =>
    intro s cs hs
    obtain ⟨row, hrow, hlen⟩ := shaped_row h1 s (by omega)
    simp only [compare_rows, hrow]
    rw [compare_row_eq adj cumul s row.length 0 cs]
    · simp only
      rw [ih (s + 1) _ (by omega), visited_append, List.range'_succ, List.flatMap_cons, hlen]
    · intro k _ hk
      rw [hlen] at hk
      exact ⟨(AdjMat.get?_isSome h1 s k).2 ⟨by omega, by omega⟩,
        (AdjMat.get?_isSome h2 s k).2 ⟨by omega, by omega⟩⟩

theorem mem_cells (V : Nat) (p : Nat × Nat) : p ∈ cells V ↔ p ∈ triangular V := by
  rw [mem_triangular]
  simp only [cells, List.mem_flatMap, List.mem_range, List.mem_map]
  constructor
  · rintro ⟨s, hs, d, hd, rfl⟩
    exact ⟨hs, hd⟩
  · rintro ⟨h1, h2⟩
    exact ⟨p.1, h1, p.2, h2, rfl⟩

theorem cells_nodup (V : Nat) : (cells V).Nodup := by
  unfold cells
  rw [List.nodup_flatMap]
  constructor
  · intro s _
    exact List.Nodup.map (fun a b hab => by simpa using hab) (List.nodup_range _)
  · refine List.Pairwise.imp ?_ (List.pairwise_lt_range V)
    intro a b hab
    simp only [Function.onFun]
    intro p hp1 hp2
    simp only [List.mem_map, List.mem_range] at hp1 hp2
    obtain ⟨d1, _, rfl⟩ := hp1
    obtain ⟨d2, _, h3⟩ := hp2
    simp only [Prod.mk.injEq] at h3
    omega

theorem decode_injective : Function.Injective decode := by
  intro p q h
  simp only [decode, Prod.mk.injEq] at h
  ext
  · exact h.1
  · omega

theorem compare_tables_eq (V : Nat) (hV : V < NODE_MOD) (adj cumul : AdjMat) (err0 : Bool)
    (h1 : adj.Shaped V) (h2 : cumul.Shaped V) :
    compare_tables V adj cumul err0 =
      .ok { found := ((cells V).filter (differ adj cumul)).map decode,
            err := err0 || (cells V).any (differ adj cumul) } := by
  unfold compare_tables
  rw [compare_rows_eq V adj cumul h1 h2 V 0 _ (by omega)]
  have hcells : (List.range' 0 V).flatMap
      (fun r => (List.range' 0 (V - r - 1)).map (fun d => (r, d))) = cells V := by
    simp only [cells, List.range_eq_range']
  rw [hcells]
  simp only [visited, List.nil_append, Except.ok.injEq, CompareState.mk.injEq, and_true]
  apply List.map_congr_left
  intro p hp
  obtain ⟨hp1, hp2⟩ := (mem_triangular V p).1 ((mem_cells V p).1 (List.mem_of_mem_filter hp))
  simp only [decode, add32, Prod.mk.injEq, true_and]
  unfold NODE_MOD at *
  omega

/-- C12: for two tables of the shape of a `V`-vertex stream, the comparison returns
(it ends in no abort), the cells it visits are, once each, the cells of the
triangular index space, the mismatches written are, in order, one for each
visited cell at which the two tables differ, each naming the edge
`(s, s + d + 1)`, with no mismatch lost after the first one, and `err` is set
by the comparison if and only if at least one cell differs. -/
theorem compare_collects_all (V : Nat) (hV : V < NODE_MOD) (adj cumul : AdjMat) (err0 : Bool)
    (h1 : adj.Shaped V) (h2 : cumul.Shaped V) :
    ∃ cs, compare_tables V adj cumul err0 = .ok cs ∧
      cs.found = ((cells V).filter (differ adj cumul)).map decode ∧
      (cells V).Nodup ∧ (∀ p, p ∈ cells V ↔ p ∈ triangular V) ∧
      cs.found.Nodup ∧
      (∀ q, q ∈ cs.found ↔
        ∃ s d a c, (s, d) ∈ triangular V ∧ adj.get? s d = some a ∧
          cumul.get? s d = some c ∧ a ≠ c ∧ q = (s, s + d + 1)) ∧
      cs.found.length = ((triangular V).filter (fun p => differ adj cumul p = true)).card ∧
      cs.err = (err0 || decide (cs.found ≠ [])) ∧
      (err0 = false → (cs.err = true ↔
        ∃ s d a c, (s, d) ∈ triangular V ∧ adj.get? s d = some a ∧
          cumul.get? s d = some c ∧ a ≠ c)) := by
  have hdiff : ∀ p : Nat × Nat, p ∈ triangular V →
      (differ adj cumul p = true ↔
        ∃ a c, adj.get? p.1 p.2 = some a ∧ cumul.get? p.1 p.2 = some c ∧ a ≠ c) := by
    intro p hp
    obtain ⟨hp1, hp2⟩ := (mem_triangular V p).1 hp
    obtain ⟨a, ha⟩ := Option.isSome_iff_exists.1 ((AdjMat.get?_isSome h1 p.1 p.2).2 ⟨hp1, hp2⟩)
    obtain ⟨c, hc⟩ := Option.isSome_iff_exists.1 ((AdjMat.get?_isSome h2 p.1 p.2).2 ⟨hp1, hp2⟩)
    simp [differ, ha, hc]
  have hmem : ∀ q, q ∈ ((cells V).filter (differ adj cumul)).map decode ↔
      ∃ s d a c, (s, d) ∈ triangular V ∧ adj.get? s d = some a ∧
        cumul.get? s d = some c ∧ a ≠ c ∧ q = (s, s + d + 1) := by
    intro q
    simp only [List.mem_map, List.mem_filter]
    constructor
    · rintro ⟨p, ⟨hp1, hp2⟩, rfl⟩
      have hp3 := (mem_cells V p).1 hp1
      obtain ⟨a, c, ha, hc, hac⟩ := (hdiff p hp3).1 hp2
      exact ⟨p.1, p.2, a, c, hp3, ha, hc, hac, rfl⟩
    · rintro ⟨s, d, a, c, hp, ha, hc, hac, rfl⟩
      exact ⟨(s, d), ⟨(mem_cells V _).2 hp, (hdiff _ hp).2 ⟨a, c, ha, hc, hac⟩⟩, rfl⟩
  have hany : (cells V).any (differ adj cumul) =
      decide (((cells V).filter (differ adj cumul)).map decode ≠ []) := by
    cases hb : (cells V).any (differ adj cumul) with
    | true =>
      obtain ⟨p, hp1, hp2⟩ := List.any_eq_true.1 hb
      symm
      rw [decide_eq_true_iff]
      intro hnil
      have : decode p ∈ ((cells V).filter (differ adj cumul)).map decode :=
        List.mem_map.2 ⟨p, List.mem_filter.2 ⟨hp1, hp2⟩, rfl⟩
      rw [hnil] at this
      cases this
    | false =>
      symm
      rw [decide_eq_false_iff_not, not_not, List.map_eq_nil_iff, List.filter_eq_nil_iff]
      intro p hp hd
      have : (cells V).any (differ adj cumul) = true := List.any_eq_true.2 ⟨p, hp, hd⟩
      rw [hb] at this
      cases this
  refine ⟨_, compare_tables_eq V hV adj cumul err0 h1 h2, rfl, cells_nodup V, mem_cells V,
    List.Nodup.map decode_injective (List.Nodup.filter _ (cells_nodup V)), hmem, ?_, ?_, ?_⟩
  · simp only [List.length_map]
    rw [← List.toFinset_card_of_nodup (List.Nodup.filter _ (cells_nodup V))]
    congr 1
    ext p
    simp only [List.mem_toFinset, List.mem_filter, Finset.mem_filter, mem_cells]
  · simp only [hany]
  · intro h0
    simp only [h0, Bool.false_or, hany, decide_eq_true_iff]
    constructor
    · intro hne
      obtain ⟨q, hq⟩ := List.exists_mem_of_ne_nil _ hne
      obtain ⟨s, d, a, c, hp, ha, hc, hac, _⟩ := (hmem q).1 hq
      exact ⟨s, d, a, c, hp, ha, hc, hac⟩
    · rintro ⟨s, d, a, c, hp, ha, hc, hac⟩ hnil
      have := (hmem (s, s + d + 1)).2 ⟨s, d, a, c, hp, ha, hc, hac, rfl⟩
      rw [hnil] at this
      cases this

/-- Witness of C12: two tables of four vertices that differ at the cells `(0,0)`
and `(1,0)`. -/
theorem compare_collects_all_witness :
    ∃ cs, compare_tables 4 ((make_adj_mat 4).set 0 0 true) ((make_adj_mat 4).set 1 0 true)
        false = .ok cs ∧
      cs.found = ((cells 4).filter
        (differ ((make_adj_mat 4).set 0 0 true) ((make_adj_mat 4).set 1 0 true))).map decode ∧
      cs.found = [(0, 1), (1, 2)] ∧ cs.err = true :=
  match compare_collects_all 4 (by decide) ((make_adj_mat 4).set 0 0 true)
      ((make_adj_mat 4).set 1 0 true) false
      (AdjMat.shaped_set (AdjMat.shaped_make (by decide)) 0 0 true)
      (AdjMat.shaped_set (AdjMat.shaped_make (by decide)) 1 0 true) with
  | ⟨cs, h1, h2, _, _, _, _, _, h3, _⟩ =>
    ⟨cs, h1, h2, h2.trans (by decide), h3.trans (by rw [h2]; decide)⟩

/-! ## The cumulative table -/

theorem edge_key_swap (t1 t2 s d : Nat) :
    edge_key { type := t1, edge := { src := s, dst := d } } =
      edge_key { type := t2, edge := { src := d, dst := s } } := by
  simp only [edge_key, min_comm, max_comm]

theorem cumul_insert_eq (V : Nat) (hV : V < NODE_MOD) (m : AdjMat) (r : GraphStreamUpdate)
    (hm : m.Shaped V) (hr : in_range V r) :
    ∃ cell, m.present (edge_key r).1 (edge_key r).2 = cell ∧
      cumul_insert m r =
        if cell = true then .error Abort.duplicateEdge
        else .ok (m.set (edge_key r).1 ((edge_key r).2 - (edge_key r).1 - 1) true) := by
  obtain ⟨hc, hlo, hoff⟩ := in_range_cell hV hr
  obtain ⟨cell, hcell⟩ := Option.isSome_iff_exists.1 ((AdjMat.get?_isSome hm _ _).2 ⟨hlo, hoff⟩)
  refine ⟨cell, by simp [AdjMat.present, edge_key, hcell], ?_⟩
  unfold cumul_insert
  simp only [hc, hcell, edge_key]
  cases cell <;> simp

theorem present_set_true (m : AdjMat) (V : Nat) (hm : m.Shaped V) (r : GraphStreamUpdate)
    (hr : in_range V r) (a b : Nat) (hab : a < b) :
    (m.set (edge_key r).1 ((edge_key r).2 - (edge_key r).1 - 1) true).present a b =
      (m.present a b || decide ((a, b) = edge_key r)) := by
  have hlt := min_lt_max_of_ne hr.1
  have hlo : min r.edge.src r.edge.dst < V := lt_of_le_of_lt (min_le_left _ _) hr.2.1
  have hhi : max r.edge.src r.edge.dst < V := max_lt hr.2.1 hr.2.2
  simp only [AdjMat.present, AdjMat.get?_set, edge_key]
  by_cases hk : (a, b) = (min r.edge.src r.edge.dst, max r.edge.src r.edge.dst)
  · simp only [Prod.mk.injEq] at hk
    obtain ⟨rfl, rfl⟩ := hk
    obtain ⟨cell, hcell⟩ := Option.isSome_iff_exists.1
      ((AdjMat.get?_isSome hm (min r.edge.src r.edge.dst)
        (max r.edge.src r.edge.dst - min r.edge.src r.edge.dst - 1)).2 ⟨hlo, by omega⟩)
    simp [hcell]
  · have hne : ¬ (min r.edge.src r.edge.dst = a ∧
        max r.edge.src r.edge.dst - min r.edge.src r.edge.dst - 1 = b - a - 1) := by
      rintro ⟨h1, h2⟩
      apply hk
      simp only [Prod.mk.injEq]
      omega
    simp [hne, hk]

theorem build_cumul_ok (V : Nat) (hV : V < NODE_MOD) (recs : List GraphStreamUpdate) :
    ∀ m : AdjMat, m.Shaped V → (∀ r ∈ recs, in_range V r) →
      (recs.map edge_key).Nodup →
      (∀ r ∈ recs, m.present (edge_key r).1 (edge_key r).2 = false) →
      ∃ m2, build_cumul recs.length m recs = .ok (m2, []) ∧ m2.Shaped V ∧
        ∀ a b, a < b →
          m2.present a b = (m.present a b || decide ((a, b) ∈ recs.map edge_key)) := by
  induction recs with
  | nil =>
    intro m hm _ _ _
    exact ⟨m, rfl, hm, fun a b _ => by simp⟩
  | cons r rs ih =>
    intro m hm hr hnd hfresh
    have hin := hr r (List.mem_cons_self _ _)
    obtain ⟨cell, hcell, hins⟩ := cumul_insert_eq V hV m r hm hin
    rw [hfresh r (List.mem_cons_self _ _)] at hcell
    subst hcell
    simp only [Bool.false_eq_true, if_false] at hins
    rw [List.map_cons, List.nodup_cons] at hnd
    have hfresh2 : ∀ x ∈ rs,
        (m.set (edge_key r).1 ((edge_key r).2 - (edge_key r).1 - 1) true).present
          (edge_key x).1 (edge_key x).2 = false := by
      intro x hx
      have hxin := hr x (List.mem_cons_of_mem _ hx)
      rw [present_set_true m V hm r hin (edge_key x).1 (edge_key x).2
        (min_lt_max_of_ne hxin.1), hfresh x (List.mem_cons_of_mem _ hx)]
      have hne : edge_key x ≠ edge_key r := by
        intro heq
        exact hnd.1 (heq ▸ List.mem_map_of_mem edge_key hx)
      simpa using hne
    obtain ⟨m2, h1, h2, h3⟩ := ih _ (AdjMat.shaped_set hm _ _ _)
      (fun x hx => hr x (List.mem_cons_of_mem _ hx)) hnd.2 hfresh2
    refine ⟨m2, by simp only [List.length_cons, build_cumul, hins, h1], h2, ?_⟩
    intro a b hab
    rw [h3 a b hab, present_set_true m V hm r hin a b hab]
    simp only [List.map_cons, List.mem_cons, Bool.or_assoc, Bool.decide_or]

theorem build_cumul_dup (V : Nat) (hV : V < NODE_MOD) (r : GraphStreamUpdate)
    (post : List GraphStreamUpdate) (k : Nat) (pre : List GraphStreamUpdate) :
    ∀ m : AdjMat, m.Shaped V → (∀ x ∈ pre, in_range V x) → in_range V r →
      (pre.map edge_key).Nodup →
      (∀ x ∈ pre, m.present (edge_key x).1 (edge_key x).2 = false) →
      (edge_key r ∈ pre.map edge_key ∨ m.present (edge_key r).1 (edge_key r).2 = true) →
      build_cumul (pre.length + 1 + k) m (pre ++ r :: post) = .error Abort.duplicateEdge := by
  induction pre with
  | nil =>
    intro m hm _ hr _ _ hdup
    obtain ⟨cell, hcell, hins⟩ := cumul_insert_eq V hV m r hm hr
    have hc : cell = true := by
      rcases hdup with h | h
      · simp at h
      · rw [← hcell]; exact h
    subst hc
    have hn : ([] : List GraphStreamUpdate).length + 1 + k = k + 1 := by
      simp [Nat.add_comm]
    rw [hn, List.nil_append]
    simp only [build_cumul, hins, if_true]
  | cons p ps ih =>
    intro m hm hpre hr hnd hfresh hdup
    have hin := hpre p (List.mem_cons_self _ _)
    obtain ⟨cell, hcell, hins⟩ := cumul_insert_eq V hV m p hm hin
    rw [hfresh p (List.mem_cons_self _ _)] at hcell
    subst hcell
    simp only [Bool.false_eq_true, if_false] at hins
    rw [List.map_cons, List.nodup_cons] at hnd
    have hfresh2 : ∀ x ∈ ps,
        (m.set (edge_key p).1 ((edge_key p).2 - (edge_key p).1 - 1) true).present
          (edge_key x).1 (edge_key x).2 = false := by
      intro x hx
      have hxin := hpre x (List.mem_cons_of_mem _ hx)
      rw [present_set_true m V hm p hin (edge_key x).1 (edge_key x).2
        (min_lt_max_of_ne hxin.1), hfresh x (List.mem_cons_of_mem _ hx)]
      have hne : edge_key x ≠ edge_key p := by
        intro heq
        exact hnd.1 (heq ▸ List.mem_map_of_mem edge_key hx)
      simpa using hne
    have hdup2 : edge_key r ∈ ps.map edge_key ∨
        (m.set (edge_key p).1 ((edge_key p).2 - (edge_key p).1 - 1) true).present
          (edge_key r).1 (edge_key r).2 = true := by
      rw [present_set_true m V hm p hin (edge_key r).1 (edge_key r).2
        (min_lt_max_of_ne hr.1)]
      rcases hdup with h | h
      · rw [List.map_cons, List.mem_cons] at h
        rcases h with h | h
        · right
          simp [h]
        · exact Or.inl h
      · right
        simp [h]
    have hrec := ih _ (AdjMat.shaped_set hm _ _ _)
      (fun x hx => hpre x (List.mem_cons_of_mem _ hx)) hr hnd.2 hfresh2 hdup2
    have hn : (p :: ps).length + 1 + k = (ps.length + 1 + k) + 1 := by
      simp only [List.length_cons]; omega
    rw [hn, List.cons_append]
    simp only [build_cumul, hins]
    exact hrec

theorem first_repeat (recs : List GraphStreamUpdate) (h : ¬ (recs.map edge_key).Nodup) :
    ∃ pre r post, recs = pre ++ r :: post ∧ (pre.map edge_key).Nodup ∧
      edge_key r ∈ pre.map edge_key := by
  induction recs using List.reverseRecOn with
  | nil => simp at h
  | append_singleton l a ih =>
    by_cases hl : (l.map edge_key).Nodup
    · refine ⟨l, a, [], rfl, hl, ?_⟩
      by_contra hmem
      apply h
      rw [List.map_append, List.nodup_append]
      refine ⟨hl, by simp, ?_⟩
      intro x hx1 hx2
      simp only [List.map_cons, List.map_nil, List.mem_singleton] at hx2
      subst hx2
      exact hmem hx1
    · obtain ⟨pre, r, post, h1, h2, h3⟩ := ih hl
      exact ⟨pre, r, post ++ [a], by rw [h1]; simp, h2, h3⟩

/-- C13: for a snapshot of `cumul_edges` records with distinct endpoints below `V`,
the loop that fills the cumulative table ends with the duplicate-edge
exception of line 159 if and only if some unordered edge occurs more than once
among the records (the two orders of a pair are the same unordered edge);
otherwise it reads every record and returns.  The exception is thrown at the
first record whose unordered edge already appeared: the records before it are
read without an abort and, with it, the loop aborts whatever follows.  The
reconciliation pass then ends with that exception, not with a comparison
result. -/
theorem duplicate_edge_aborts (V : Nat) (hV : V < NODE_MOD) (recs : List GraphStreamUpdate)
    (hr : ∀ r ∈ recs, in_range V r) :
    (build_cumul recs.length (make_adj_mat V) recs = .error Abort.duplicateEdge ↔
      ¬ (recs.map edge_key).Nodup) ∧
    ((recs.map edge_key).Nodup →
      ∃ m, build_cumul recs.length (make_adj_mat V) recs = .ok (m, [])) ∧
    (∀ pre r post, recs = pre ++ r :: post → (pre.map edge_key).Nodup →
      edge_key r ∈ pre.map edge_key →
      (∃ m, build_cumul pre.length (make_adj_mat V) pre = .ok (m, [])) ∧
      ∀ post2, build_cumul (pre ++ r :: post2).length (make_adj_mat V) (pre ++ r :: post2) =
        .error Abort.duplicateEdge) ∧
    (¬ (recs.map edge_key).Nodup → ∀ adj err,
      reconcile V adj err { vertices := V, edges := recs.length, records := recs } =
        .error Abort.duplicateEdge) ∧
    (∀ t1 t2 s d, edge_key { type := t1, edge := { src := s, dst := d } } =
      edge_key { type := t2, edge := { src := d, dst := s } }) := by
  have hfresh : ∀ l : List GraphStreamUpdate, ∀ x ∈ l,
      (make_adj_mat V).present (edge_key x).1 (edge_key x).2 = false :=
    fun _ _ _ => make_adj_mat_present V _ _
  have hsplit : ∀ pre r post, recs = pre ++ r :: post → (pre.map edge_key).Nodup →
      edge_key r ∈ pre.map edge_key →
      ∀ post2, build_cumul (pre ++ r :: post2).length (make_adj_mat V) (pre ++ r :: post2) =
        .error Abort.duplicateEdge := by
    intro pre r post hrecs hnd hmem post2
    have hpre : ∀ x ∈ pre, in_range V x := fun x hx => hr x (by rw [hrecs]; simp [hx])
    have hrr : in_range V r := hr r (by rw [hrecs]; simp)
    have hlen : (pre ++ r :: post2).length = pre.length + 1 + post2.length := by
      simp only [List.length_append, List.length_cons]; omega
    rw [hlen]
    exact build_cumul_dup V hV r post2 post2.length pre (make_adj_mat V)
      (AdjMat.shaped_make hV) hpre hrr hnd (hfresh pre) (Or.inl hmem)
  have hdup : ¬ (recs.map edge_key).Nodup →
      build_cumul recs.length (make_adj_mat V) recs = .error Abort.duplicateEdge := by
    intro hnd
    obtain ⟨pre, r, post, h1, h2, h3⟩ := first_repeat recs hnd
    have := hsplit pre r post h1 h2 h3 post
    rw [← h1] at this
    exact this
  have hok : (recs.map edge_key).Nodup →
      ∃ m, build_cumul recs.length (make_adj_mat V) recs = .ok (m, []) := by
    intro hnd
    obtain ⟨m, h1, _⟩ := build_cumul_ok V hV recs (make_adj_mat V) (AdjMat.shaped_make hV) hr
      hnd (hfresh recs)
    exact ⟨m, h1⟩
  refine ⟨⟨?_, hdup⟩, hok, ?_, ?_, edge_key_swap⟩
  · intro herr hnd
    obtain ⟨m, h1⟩ := hok hnd
    rw [h1] at herr
    cases herr
  · intro pre r post hrecs hnd hmem
    refine ⟨?_, hsplit pre r post hrecs hnd hmem⟩
    obtain ⟨m, h1, _⟩ := build_cumul_ok V hV pre (make_adj_mat V) (AdjMat.shaped_make hV)
      (fun x hx => hr x (by rw [hrecs]; simp [hx])) hnd (hfresh pre)
    exact ⟨m, h1⟩
  · intro hnd adj err
    unfold reconcile
    simp only [ne_eq, not_true_eq_false, if_false, hdup hnd]

/-- Witness of C13: a snapshot of four vertices that lists `(0,1)`, `(2,3)` and
then `(1,0)`. -/
theorem duplicate_edge_aborts_witness :
    build_cumul [insert_rec 0 1, insert_rec 2 3, insert_rec 1 0].length (make_adj_mat 4)
        [insert_rec 0 1, insert_rec 2 3, insert_rec 1 0] = .error Abort.duplicateEdge ↔
      ¬ ([insert_rec 0 1, insert_rec 2 3, insert_rec 1 0].map edge_key).Nodup :=
  (duplicate_edge_aborts 4 (by decide) [insert_rec 0 1, insert_rec 2 3, insert_rec 1 0]
    (by
      intro r hr
      simp only [List.mem_cons, List.mem_singleton, List.not_mem_nil, or_false] at hr
      rcases hr with rfl | rfl | rfl <;> exact ⟨by decide, by decide, by decide⟩)).1

/-! ## Reconciliation of an accepted stream -/

theorem alternates_last (ks : List Nat) :
    ∀ c : Bool, alternates_from c ks →
      (ks.getLast? = some INSERT ↔
        (c = false ∧ ks.length % 2 = 1) ∨ (c = true ∧ ks.length % 2 = 0 ∧ ks ≠ [])) := by
  induction ks with
  | nil => intro c _; simp
  | cons k ks ih =>
    intro c h
    simp only [alternates_from] at h
    obtain ⟨hk, hrest⟩ := h
    cases ks with
    | nil =>
      subst hk
      cases c <;> simp [expected_kind, INSERT, DELETE]
    | cons k2 ks2 =>
      rw [List.getLast?_cons_cons, ih (!c) hrest]
      simp only [List.length_cons, ne_eq, reduceCtorEq, not_false_eq_true, and_true]
      cases c
      · simp only [Bool.not_false, Bool.true_eq_false, Bool.false_eq_true, false_and,
          true_and, false_or, or_false]
        omega
      · simp only [Bool.not_true, true_and, Bool.true_eq_false, Bool.false_eq_true,
          false_and, or_false, false_or]
        omega

theorem validate_accepted (V E : Nat) (pre : List (List GraphStreamUpdate))
    (t : List GraphStreamUpdate) (post : List (List GraphStreamUpdate))
    (hV : V < NODE_MOD) (hpre : ∀ b ∈ pre, is_terminal b = false)
    (ht : is_terminal t = true)
    (hacc : reports_success (validate V E (pre ++ t :: post)) = true) :
    ∃ st, validate V E (pre ++ t :: post) = .ok (st, post) ∧ st.err = false ∧
      st.adj_mat.Shaped V ∧
      records_in_range V (pre.flatten ++ t) ∧
      (∀ a b, a < b → alternates (kinds_on a b (pre.flatten ++ t))) ∧
      ∀ a b, a < b → st.adj_mat.present a b =
        decide ((kinds_on a b (pre.flatten ++ t)).length % 2 = 1) := by
  unfold validate at hacc ⊢
  rw [validate_loop_flat V E t post ht pre (initial_state V) hpre] at hacc ⊢
  cases hp : process_batch V 0 (initial_state V) (pre.flatten ++ t) with
  | error a =>
    rw [hp] at hacc
    simp [reports_success] at hacc
  | ok s =>
    rw [hp] at hacc
    simp only at hacc ⊢
    have hinv : s.err = false ↔ s.log = [] :=
      (process_batch_ok hp).2.2.2 (by simp [initial_state])
    have hsucc := (terminal_check_success E
      { s with total_checked :=
          add64 (initial_state V).total_checked (pre.flatten ++ t).length } post hinv).1 hacc
    simp only at hsucc
    obtain ⟨hrir, halt⟩ := (initial_success_iff V hV (pre.flatten ++ t)).1
      (by rw [hp]; exact ⟨s, rfl, hsucc.1⟩)
    obtain ⟨s2, hs2, hshape, hpar⟩ := process_batch_parity V hV (pre.flatten ++ t) 0
      (initial_state V) (AdjMat.shaped_make hV) (fun r hr hbp _ => hrir r hr hbp)
    rw [hp] at hs2
    cases hs2
    have hnochange : terminal_check E
        { s with total_checked :=
            add64 (initial_state V).total_checked (pre.flatten ++ t).length } =
        { s with total_checked :=
            add64 (initial_state V).total_checked (pre.flatten ++ t).length } := by
      unfold terminal_check
      simp only [hsucc.2, ne_eq, not_true_eq_false, if_false]
    refine ⟨_, rfl, ?_, ?_, hrir, halt, ?_⟩
    · rw [hnochange]; exact hsucc.1
    · rw [hnochange]; exact hshape
    · intro a b hab
      rw [hnochange]
      simp only
      rw [hpar a b hab]
      simp [initial_state, make_adj_mat_present]

theorem present_none (V : Nat) (m : AdjMat) (hm : m.Shaped V) (a b : Nat) (hab : a < b)
    (hb : ¬ b < V) : m.present a b = false := by
  unfold AdjMat.present
  cases h : m.get? a (b - a - 1) with
  | none => rfl
  | some c =>
    have := (AdjMat.get?_isSome hm a (b - a - 1)).1 (by rw [h]; rfl)
    omega

theorem differ_eq_present (V : Nat) (adj cumul : AdjMat) (h1 : adj.Shaped V)
    (h2 : cumul.Shaped V) (a b : Nat) (hab : a < b) (hb : b < V) :
    differ adj cumul (a, b - a - 1) = (adj.present a b != cumul.present a b) := by
  obtain ⟨x, hx⟩ := Option.isSome_iff_exists.1
    ((AdjMat.get?_isSome h1 a (b - a - 1)).2 ⟨by omega, by omega⟩)
  obtain ⟨y, hy⟩ := Option.isSome_iff_exists.1
    ((AdjMat.get?_isSome h2 a (b - a - 1)).2 ⟨by omega, by omega⟩)
  simp [differ, AdjMat.present, hx, hy]

theorem any_differ_false_iff (V : Nat) (adj cumul : AdjMat) (h1 : adj.Shaped V)
    (h2 : cumul.Shaped V) :
    (cells V).any (differ adj cumul) = false ↔
      ∀ a b, a < b → adj.present a b = cumul.present a b := by
  constructor
  · intro h a b hab
    by_cases hb : b < V
    · have hmem : (a, b - a - 1) ∈ cells V :=
        (mem_cells V _).2 ((mem_triangular V _).2 ⟨by simp only; omega, by simp only; omega⟩)
      have hd : differ adj cumul (a, b - a - 1) = false := by
        cases hx : differ adj cumul (a, b - a - 1) with
        | false => rfl
        | true =>
          have : (cells V).any (differ adj cumul) = true :=
            List.any_eq_true.2 ⟨_, hmem, hx⟩
          rw [h] at this
          cases this
      rw [differ_eq_present V adj cumul h1 h2 a b hab hb] at hd
      simpa using hd
    · rw [present_none V adj h1 a b hab hb, present_none V cumul h2 a b hab hb]
  · intro h
    cases hx : (cells V).any (differ adj cumul) with
    | false => rfl
    | true =>
      obtain ⟨p, hp1, hp2⟩ := List.any_eq_true.1 hx
      obtain ⟨hp3, hp4⟩ := (mem_triangular V p).1 ((mem_cells V p).1 hp1)
      have hd := differ_eq_present V adj cumul h1 h2 p.1 (p.1 + p.2 + 1) (by omega) (by omega)
      have hsub : p.1 + p.2 + 1 - p.1 - 1 = p.2 := by omega
      rw [hsub, h p.1 (p.1 + p.2 + 1) (by omega)] at hd
      rw [hp2] at hd
      simp at hd

theorem main_accepted (V E : Nat) (pre : List (List GraphStreamUpdate))
    (t : List GraphStreamUpdate) (post : List (List GraphStreamUpdate)) (cumul : CumulStream)
    (hV : V < NODE_MOD) (hpre : ∀ b ∈ pre, is_terminal b = false)
    (ht : is_terminal t = true)
    (hacc : reports_success (validate V E (pre ++ t :: post)) = true)
    (hcv : cumul.vertices = V) (hce : cumul.edges = cumul.records.length)
    (hcr : ∀ r ∈ cumul.records, in_range V r)
    (hnd : (cumul.records.map edge_key).Nodup) :
    ∃ st m2, validate V E (pre ++ t :: post) = .ok (st, post) ∧
      st.adj_mat.Shaped V ∧ m2.Shaped V ∧
      (∀ a b, a < b → st.adj_mat.present a b =
        decide ((kinds_on a b (pre.flatten ++ t)).length % 2 = 1)) ∧
      (∀ a b, a < b → alternates (kinds_on a b (pre.flatten ++ t))) ∧
      (∀ a b, a < b → m2.present a b = decide ((a, b) ∈ cumul.records.map edge_key)) ∧
      main V E (pre ++ t :: post) (some cumul) =
        if (cells V).any (differ st.adj_mat m2) = true then
          .ok (Outcome.mismatched st (((cells V).filter (differ st.adj_mat m2)).map decode))
        else .ok (Outcome.matched st) := by
  obtain ⟨st, hval, herr, hshape, _, halt, hpar⟩ :=
    validate_accepted V E pre t post hV hpre ht hacc
  obtain ⟨m2, hb, hm2, hpres⟩ := build_cumul_ok V hV cumul.records (make_adj_mat V)
    (AdjMat.shaped_make hV) hcr hnd (fun _ _ => make_adj_mat_present V _ _)
  have hcmp := compare_tables_eq V hV st.adj_mat m2 false hshape hm2
  refine ⟨st, m2, hval, hshape, hm2, hpar, halt, ?_, ?_⟩
  · intro a b hab
    rw [hpres a b hab, make_adj_mat_present, Bool.false_or]
  · unfold main reconcile
    rw [hval]
    simp only [herr, Bool.false_eq_true, if_false, hcv, ne_eq, not_true_eq_false, hce, hb,
      hcmp, Bool.false_or]

/-- C11: for a stream that the validation pass accepts with no diagnostic and a
snapshot with the same vertex count whose `cumul_edges` records have distinct
endpoints below `V` and name pairwise different unordered edges, `main` ends
either with the match of line 174 or with the mismatch exit of line 178, and
it ends with the match if and only if the unordered edges listed by the
snapshot are exactly the edges whose last record in the stream is an
Insert. -/
theorem reconcile_iff_edge_sets (V E : Nat) (pre : List (List GraphStreamUpdate))
    (t : List GraphStreamUpdate) (post : List (List GraphStreamUpdate)) (cumul : CumulStream)
    (hV : V < NODE_MOD) (hpre : ∀ b ∈ pre, is_terminal b = false)
    (ht : is_terminal t = true)
    (hacc : reports_success (validate V E (pre ++ t :: post)) = true)
    (hcv : cumul.vertices = V) (hce : cumul.edges = cumul.records.length)
    (hcr : ∀ r ∈ cumul.records, in_range V r)
    (hnd : (cumul.records.map edge_key).Nodup) :
    ∃ st, validate V E (pre ++ t :: post) = .ok (st, post) ∧
      (main V E (pre ++ t :: post) (some cumul) = .ok (Outcome.matched st) ∨
        ∃ found, found ≠ [] ∧
          main V E (pre ++ t :: post) (some cumul) = .ok (Outcome.mismatched st found)) ∧
      (main V E (pre ++ t :: post) (some cumul) = .ok (Outcome.matched st) ↔
        ∀ a b, a < b →
          ((a, b) ∈ cumul.records.map edge_key ↔
            (kinds_on a b (pre ++ [t]).flatten).getLast? = some INSERT)) := by
  obtain ⟨st, m2, hval, hshape, hm2, hpar, halt, hpres, hmain⟩ :=
    main_accepted V E pre t post cumul hV hpre ht hacc hcv hce hcr hnd
  have hflat : (pre ++ [t]).flatten = pre.flatten ++ t := by simp
  rw [hflat]
  have hedge : (∀ a b, a < b → st.adj_mat.present a b = m2.present a b) ↔
      ∀ a b, a < b →
        ((a, b) ∈ cumul.records.map edge_key ↔
          (kinds_on a b (pre.flatten ++ t)).getLast? = some INSERT) := by
    refine forall_congr' (fun a => forall_congr' (fun b => imp_congr_right (fun hab => ?_)))
    rw [hpar a b hab, hpres a b hab, alternates_last _ false (halt a b hab)]
    simp only [true_and, Bool.false_eq_true, false_and, or_false, decide_eq_decide]
    exact ⟨fun h => h.symm, fun h => h.symm⟩
  refine ⟨st, hval, ?_, ?_⟩
  · rw [hmain]
    cases hany : (cells V).any (differ st.adj_mat m2) with
    | false => left; simp
    | true =>
      right
      refine ⟨((cells V).filter (differ st.adj_mat m2)).map decode, ?_, by simp⟩
      obtain ⟨p, hp1, hp2⟩ := List.any_eq_true.1 hany
      intro hnil
      have : decode p ∈ ((cells V).filter (differ st.adj_mat m2)).map decode :=
        List.mem_map.2 ⟨p, List.mem_filter.2 ⟨hp1, hp2⟩, rfl⟩
      rw [hnil] at this
      cases this
  · rw [← hedge, ← any_differ_false_iff V st.adj_mat m2 hshape hm2, hmain]
    cases hany : (cells V).any (differ st.adj_mat m2) <;> simp

/-- Witness of C11: four vertices, the inserts of `(0,1)` and `(2,3)`, and the
snapshot that lists `(0,1)` and `(2,3)`; the run against that snapshot ends
with the match, the run against the snapshot `(0,1)`, `(1,2)` ends with the
mismatches on `(1,2)` and `(2,3)`. -/
theorem reconcile_iff_edge_sets_witness :
    (∃ st, validate 4 2 ([[insert_rec 0 1, insert_rec 2 3, breakpoint_rec]] ++
          [breakpoint_rec] :: []) = .ok (st, []) ∧
      (main 4 2 ([[insert_rec 0 1, insert_rec 2 3, breakpoint_rec]] ++ [breakpoint_rec] :: [])
          (some { vertices := 4, edges := 2, records := [insert_rec 0 1, insert_rec 2 3] }) =
          .ok (Outcome.matched st) ∨
        ∃ found, found ≠ [] ∧
          main 4 2 ([[insert_rec 0 1, insert_rec 2 3, breakpoint_rec]] ++
              [breakpoint_rec] :: [])
            (some { vertices := 4, edges := 2, records := [insert_rec 0 1, insert_rec 2 3] }) =
            .ok (Outcome.mismatched st found)) ∧
      (main 4 2 ([[insert_rec 0 1, insert_rec 2 3, breakpoint_rec]] ++ [breakpoint_rec] :: [])
          (some { vertices := 4, edges := 2, records := [insert_rec 0 1, insert_rec 2 3] }) =
          .ok (Outcome.matched st) ↔
        ∀ a b, a < b →
          ((a, b) ∈ [insert_rec 0 1, insert_rec 2 3].map edge_key ↔
            (kinds_on a b ([[insert_rec 0 1, insert_rec 2 3, breakpoint_rec]] ++
              [[breakpoint_rec]]).flatten).getLast? = some INSERT))) ∧
    main 4 2 sample_stream
        (some { vertices := 4, edges := 2, records := [insert_rec 0 1, insert_rec 2 3] }) =
      .ok (Outcome.matched
        { adj_mat := [[true, false, false], [false, false], [true], []], err := false,
          total_checked := 4, log := [] }) ∧
    main 4 2 sample_stream
        (some { vertices := 4, edges := 2, records := [insert_rec 0 1, insert_rec 1 2] }) =
      .ok (Outcome.mismatched
        { adj_mat := [[true, false, false], [false, false], [true], []], err := false,
          total_checked := 4, log := [] } [(1, 2), (2, 3)]) :=
  ⟨reconcile_iff_edge_sets 4 2 [[insert_rec 0 1, insert_rec 2 3, breakpoint_rec]]
      [breakpoint_rec] []
      { vertices := 4, edges := 2, records := [insert_rec 0 1, insert_rec 2 3] }
      (by decide) (by decide) (by decide) rfl rfl rfl
      (by
        intro r hr
        simp only [List.mem_cons, List.mem_singleton, List.not_mem_nil, or_false] at hr
        rcases hr with rfl | rfl <;> exact ⟨by decide, by decide, by decide⟩)
      (by decide),
    rfl, rfl⟩

end StreamValidator
